import Mathlib

/-!
Shallow embedding of src/libspc/serialization.c: the typed value tree, the
growable buffer writer with its out-of-band port list, the bounded reader,
and the envelope serializer/deserializer for the CPX@ wire format.

Bytes are modelled as natural numbers (well-formed inputs keep them below
256), buffers as lists of bytes, and pointers as integer offsets from the
buffer start.  Fallible reads return Except: the `error` constructors model
the process-terminating paths of the source (abort on out-of-bounds reads,
exit on unknown tags/descriptors and on the connection-interrupted id),
while a NULL return of spc_deserialize is modelled as `.ok none`.
-/

namespace Spc

/-- Little-endian byte encoding of a 32-bit value (memcpy of a uint32_t). -/
def encU32 (v : Nat) : List Nat :=
  [v % 256, v / 256 % 256, v / 65536 % 256, v / 16777216 % 256]

/-- Little-endian byte decoding of a 32-bit value. -/
def decU32 (bs : List Nat) : Nat :=
  bs.getD 0 0 + bs.getD 1 0 * 256 + bs.getD 2 0 * 65536 + bs.getD 3 0 * 16777216

/-- Little-endian byte encoding of a 64-bit value (memcpy of a uint64_t). -/
def encU64 (v : Nat) : List Nat :=
  encU32 (v % 4294967296) ++ encU32 (v / 4294967296)

/-- Little-endian byte decoding of a 64-bit value. -/
def decU64 (bs : List Nat) : Nat :=
  decU32 (bs.take 4) + decU32 (bs.drop 4) * 4294967296

/-- Two's-complement image of an int64_t inside a uint64_t. -/
def i64ToNat (v : Int) : Nat := (v % (18446744073709551616 : Int)).toNat

/-- Signed reinterpretation of a 64-bit pattern (reading an int64_t). -/
def natToI64 (n : Nat) : Int :=
  if n < 9223372036854775808 then (n : Int) else (n : Int) - 18446744073709551616

/-- A kernel port handle: spc_port_t from serialization.h, a pair of a
32-bit name and a 32-bit disposition type (usage visible in the source). -/
structure spc_port_t where
  name : Nat
  type : Nat
deriving DecidableEq, Repr

/-- Modelled from the spec: the null-port sentinel has name 0 (spc_port_t
SPC_NULL_PORT lives in the missing serialization.h). -/
def SPC_NULL_PORT : spc_port_t := ⟨0, 0⟩

/-- The tagged value union spc_value_t.  Dictionaries are the linked list of
(key, value) items in iteration order; arrays are the value sequence; the
double payload is kept as its 8-byte pattern (the codec never interprets
it); uuid is the 16-byte allocation behind value.value.ptr. -/
inductive spc_value_t where
  | null
  | bool (b : Nat)
  | uint64 (v : Nat)
  | int64 (v : Int)
  | double (bits : Nat)
  | string (s : List Nat)
  | data (bs : List Nat)
  | uuid (bs : List Nat)
  | array (vs : List spc_value_t)
  | dict (items : List (List Nat × spc_value_t))
  | fd (p : spc_port_t)
  | send_port (p : spc_port_t)
  | recv_port (p : spc_port_t)

/-- Modelled from the spec: the numeric wire tags are fixed by the peer
protocol and live in the missing serialization.h; the spec treats them as
an opaque closed enumeration of distinct 32-bit constants. -/
def SPC_TYPE_NULL : Nat := 0x1000
def SPC_TYPE_BOOL : Nat := 0x2000
def SPC_TYPE_INT64 : Nat := 0x3000
def SPC_TYPE_UINT64 : Nat := 0x4000
def SPC_TYPE_DOUBLE : Nat := 0x5000
def SPC_TYPE_DATA : Nat := 0x8000
def SPC_TYPE_STRING : Nat := 0x9000
def SPC_TYPE_UUID : Nat := 0xa000
def SPC_TYPE_FD : Nat := 0xb000
def SPC_TYPE_SEND_PORT : Nat := 0xd000
def SPC_TYPE_ARRAY : Nat := 0xe000
def SPC_TYPE_DICT : Nat := 0xf000
def SPC_TYPE_RECV_PORT : Nat := 0x10000

/-- The value.type field of a tree node. -/
def tagOf : spc_value_t → Nat
  | .null => SPC_TYPE_NULL
  | .bool _ => SPC_TYPE_BOOL
  | .uint64 _ => SPC_TYPE_UINT64
  | .int64 _ => SPC_TYPE_INT64
  | .double _ => SPC_TYPE_DOUBLE
  | .string _ => SPC_TYPE_STRING
  | .data _ => SPC_TYPE_DATA
  | .uuid _ => SPC_TYPE_UUID
  | .array _ => SPC_TYPE_ARRAY
  | .dict _ => SPC_TYPE_DICT
  | .fd _ => SPC_TYPE_FD
  | .send_port _ => SPC_TYPE_SEND_PORT
  | .recv_port _ => SPC_TYPE_RECV_PORT

/-- writer_t: the growable buffer (cursor = buf.length, offsets from
buffer start) and the side list of collected ports.  spc_ensure_space and
the realloc growth strategy have no observable effect on this view. -/
structure writer_t where
  buf : List Nat
  ports : List spc_port_t
deriving Repr

/-- spc_write: append len raw bytes, return len. -/
def spc_write (w : writer_t) (bytes : List Nat) : writer_t × Nat :=
  ({ w with buf := w.buf ++ bytes }, bytes.length)

/-- spc_write_padded: append the bytes, then (4 - len mod 4) mod 4 zero
bytes; return the padded length. -/
def spc_write_padded (w : writer_t) (bytes : List Nat) : writer_t × Nat :=
  let remainder := (4 - bytes.length % 4) % 4
  ({ w with buf := w.buf ++ bytes ++ List.replicate remainder 0 },
   bytes.length + remainder)

/-- spc_write_str: padded write of strlen(str)+1 bytes (the string bytes
and the NUL terminator). -/
def spc_write_str (w : writer_t) (s : List Nat) : writer_t × Nat :=
  spc_write_padded w (s ++ [0])

/-- spc_write_uint32: memcpy of the 4 bytes of the uint32_t argument
(conversion to uint32_t truncates, which encU32 performs per byte). -/
def spc_write_uint32 (w : writer_t) (v : Nat) : writer_t × Nat :=
  ({ w with buf := w.buf ++ encU32 v }, 4)

/-- spc_write_uint64: memcpy of the 8 bytes of the uint64_t argument. -/
def spc_write_uint64 (w : writer_t) (v : Nat) : writer_t × Nat :=
  ({ w with buf := w.buf ++ encU64 v }, 8)

/-- spc_write_int64: the source prototype itself takes a uint64_t. -/
def spc_write_int64 (w : writer_t) (v : Nat) : writer_t × Nat :=
  ({ w with buf := w.buf ++ encU64 v }, 8)

/-- spc_write_double: memcpy of the 8-byte pattern of the double. -/
def spc_write_double (w : writer_t) (bits : Nat) : writer_t × Nat :=
  ({ w with buf := w.buf ++ encU64 bits }, 8)

/-- spc_write_port: append the port to the writer's port list. -/
def spc_write_port (w : writer_t) (p : spc_port_t) : writer_t :=
  { w with ports := w.ports ++ [p] }

/-- The backpatch store *(uint32_t*)(start + off) = v. -/
def patchU32 (buf : List Nat) (off : Nat) (v : Nat) : List Nat :=
  buf.take off ++ encU32 v ++ buf.drop (off + 4)

mutual
/-- spc_serialize_value: write the tag, then the payload by tag; port
values write nothing inline and collect the port; returns the byte count
it accounts to the parent. -/
def spc_serialize_value (w : writer_t) (v : spc_value_t) : writer_t × Nat :=
  let (w1, t) := spc_write_uint32 w (tagOf v)
  match v with
  | .null => (w1, t)
  | .bool b =>
    let (w2, n) := spc_write_uint32 w1 b
    (w2, t + n)
  | .uint64 u =>
    let (w2, n) := spc_write_uint64 w1 u
    (w2, t + n)
  | .int64 i =>
    let (w2, n) := spc_write_int64 w1 (i64ToNat i)
    (w2, t + n)
  | .double d =>
    let (w2, n) := spc_write_double w1 d
    (w2, t + n)
  | .string s =>
    let (w2, n1) := spc_write_uint32 w1 (s.length + 1)
    let (w3, n2) := spc_write_str w2 s
    (w3, t + n1 + n2)
  | .data bs =>
    let (w2, n1) := spc_write_uint32 w1 bs.length
    let (w3, n2) := spc_write_padded w2 bs
    (w3, t + n1 + n2)
  | .uuid bs =>
    let (w2, n) := spc_write w1 bs
    (w2, t + n)
  | .array vs =>
    let (w2, n) := spc_write_array w1 vs
    (w2, t + n)
  | .dict its =>
    let (w2, n) := spc_write_dict w1 its
    (w2, t + n)
  | .fd p => (spc_write_port w1 p, t)
  | .send_port p => (spc_write_port w1 p, t)
  | .recv_port p => (spc_write_port w1 p, t)

/-- spc_write_array: record the byte-size offset, write a placeholder 0,
write the element count, write the elements, patch the byte size, return
bytes_written + 4. -/
def spc_write_array (w : writer_t) (vs : List spc_value_t) : writer_t × Nat :=
  let bytesize_offset := w.buf.length
  let (w1, _) := spc_write_uint32 w 0
  let (w2, n1) := spc_write_uint32 w1 vs.length
  let (w3, n2) := spc_write_array_items w2 vs
  let bytes_written := n1 + n2
  ({ w3 with buf := patchU32 w3.buf bytesize_offset bytes_written },
   bytes_written + 4)

/-- The element loop of spc_write_array, accumulating returned counts. -/
def spc_write_array_items (w : writer_t) (vs : List spc_value_t) : writer_t × Nat :=
  match vs with
  | [] => (w, 0)
  | v :: rest =>
    let (w1, n) := spc_serialize_value w v
    let (w2, m) := spc_write_array_items w1 rest
    (w2, n + m)

/-- spc_write_dict: like spc_write_array, with each item contributing its
padded key string followed by its value. -/
def spc_write_dict (w : writer_t) (its : List (List Nat × spc_value_t)) : writer_t × Nat :=
  let bytesize_offset := w.buf.length
  let (w1, _) := spc_write_uint32 w 0
  let (w2, n1) := spc_write_uint32 w1 its.length
  let (w3, n2) := spc_write_dict_items w2 its
  let bytes_written := n1 + n2
  ({ w3 with buf := patchU32 w3.buf bytesize_offset bytes_written },
   bytes_written + 4)

/-- The item loop of spc_write_dict. -/
def spc_write_dict_items (w : writer_t) (its : List (List Nat × spc_value_t)) : writer_t × Nat :=
  match its with
  | [] => (w, 0)
  | (k, v) :: rest =>
    let (w1, n1) := spc_write_str w k
    let (w2, n2) := spc_serialize_value w1 v
    let (w3, m) := spc_write_dict_items w2 rest
    (w3, n1 + n2 + m)
end

/-! ## Envelope serializer -/

/-- Platform layout constants of the kernel message structures
(mach/message.h on the 64-bit target): header 24 bytes, body 4 bytes,
inline port descriptor 12 bytes, out-of-line descriptors 16 bytes. -/
def machHeaderSize : Nat := 24
def machBodySize : Nat := 4
def portDescSize : Nat := 12
def oolDescSize : Nat := 16
def oolPortsDescSize : Nat := 16

def MACH_MSGH_BITS_COMPLEX : Nat := 0x80000000
def MACH_MSG_PORT_DESCRIPTOR : Nat := 0
def MACH_MSG_OOL_DESCRIPTOR : Nat := 1
def MACH_MSG_OOL_PORTS_DESCRIPTOR : Nat := 2

/-- The MACH_MSGH_BITS(remote, local) macro, computed in 32-bit unsigned
arithmetic. -/
def MACH_MSGH_BITS (rbits lbits : Nat) : Nat :=
  (rbits ||| (lbits <<< 8)) % 4294967296

/-- MACH_MSGH_BITS_REMOTE: bits & 0x1f. -/
def MACH_MSGH_BITS_REMOTE (bits : Nat) : Nat := bits &&& 0x1f

/-- MACH_MSGH_BITS_LOCAL: (bits & 0x1f00) >> 8. -/
def MACH_MSGH_BITS_LOCAL (bits : Nat) : Nat := (bits &&& 0x1f00) >>> 8

/-- The mach message header fields the source reads or writes (all 32-bit;
the voucher field is never touched). -/
structure mach_msg_header_t where
  msgh_bits : Nat
  msgh_size : Nat
  msgh_remote_port : Nat
  msgh_local_port : Nat
  msgh_id : Nat
deriving DecidableEq, Repr

/-- spc_mach_message_t: the header followed by the raw bytes after it
(body, descriptors and inline payload for complex messages; just the
inline payload otherwise). -/
structure spc_mach_message_t where
  header : mach_msg_header_t
  buf : List Nat
deriving Repr

/-- spc_message_t. -/
structure spc_message_t where
  remote_port : spc_port_t
  local_port : spc_port_t
  id : Nat
  content : List (List Nat × spc_value_t)

/-- The 8-byte magic+version prefix CPX@ 05 00 00 00. -/
def magicBytes : List Nat := [0x43, 0x50, 0x58, 0x40, 5, 0, 0, 0]

/-- The 12 bytes of a mach_msg_port_descriptor_t as the serializer fills
it: name, then the uninitialized pad word (zero in the model), then the
pad2 halfword, the 8-bit disposition bitfield and the 8-bit type field
MACH_MSG_PORT_DESCRIPTOR. -/
def encPortDescriptor (p : spc_port_t) : List Nat :=
  encU32 p.name ++ encU32 0 ++ [0, 0, p.type % 256, MACH_MSG_PORT_DESCRIPTOR]

/-- spc_serialize: magic, DICT tag, dictionary body into the writer; then
the kernel message: for collected ports a complex message with body and
one port descriptor per collected port before the inline bytes, otherwise
the inline bytes directly after the header. -/
def spc_serialize (msg : spc_message_t) : spc_mach_message_t :=
  let w0 : writer_t := ⟨[], []⟩
  let (w1, _) := spc_write w0 magicBytes
  let (w2, _) := spc_write_uint32 w1 SPC_TYPE_DICT
  let (w3, _) := spc_write_dict w2 msg.content
  let content_size := w3.buf.length
  if w3.ports.length ≠ 0 then
    let actual_size := machHeaderSize + machBodySize +
      w3.ports.length * portDescSize + content_size
    { header :=
        { msgh_bits := (MACH_MSGH_BITS_COMPLEX |||
            MACH_MSGH_BITS msg.remote_port.type msg.local_port.type) % 4294967296
          msgh_size := actual_size % 4294967296
          msgh_remote_port := msg.remote_port.name % 4294967296
          msgh_local_port := msg.local_port.name % 4294967296
          msgh_id := msg.id % 4294967296 }
      buf := encU32 w3.ports.length ++
        (w3.ports.map encPortDescriptor).flatten ++ w3.buf }
  else
    let actual_size := machHeaderSize + content_size
    { header :=
        { msgh_bits :=
            MACH_MSGH_BITS msg.remote_port.type msg.local_port.type % 4294967296
          msgh_size := actual_size % 4294967296
          msgh_remote_port := msg.remote_port.name % 4294967296
          msgh_local_port := msg.local_port.name % 4294967296
          msgh_id := msg.id % 4294967296 }
      buf := w3.buf }

/-! ## Reader -/

/-- The error outcomes of decoding.  Every constructor except none models
a path on which the source process terminates: oob_read is the abort() in
spc_read, unknown_value_type and unknown_descriptor and conn_interrupted
are exit(-1) calls, null_str is the crash of strdup(NULL) after
spc_read_str finds no terminator, out_of_fuel is the modelling bound on
the recursion (unreachable for any input the reader budget admits). -/
inductive spc_error where
  | oob_read
  | unknown_value_type
  | unknown_descriptor
  | conn_interrupted
  | null_str
  | out_of_fuel
deriving DecidableEq, Repr

/-- reader_t: mem is the byte region from the initial read pointer
(mach_msg->buf) onward, pos the cursor offset from that pointer, endp the
signed distance from that pointer to reader->end (msgh_size minus the
header size), plus the collected port list and its pull cursor. -/
structure reader_t where
  mem : List Nat
  pos : Nat
  endp : Int
  next_port : Nat
  ports : List spc_port_t
deriving Repr

/-- spc_read: abort (error) if the cursor would pass reader->end,
otherwise return the len bytes at the cursor and advance. -/
def spc_read (r : reader_t) (len : Nat) : Except spc_error (List Nat × reader_t) :=
  if (r.pos + len : Int) > r.endp then .error .oob_read
  else .ok ((r.mem.drop r.pos).take len, { r with pos := r.pos + len })

def spc_read_uint32 (r : reader_t) : Except spc_error (Nat × reader_t) :=
  match spc_read r 4 with
  | .error e => .error e
  | .ok (bs, r1) => .ok (decU32 bs, r1)

def spc_read_uint64 (r : reader_t) : Except spc_error (Nat × reader_t) :=
  match spc_read r 8 with
  | .error e => .error e
  | .ok (bs, r1) => .ok (decU64 bs, r1)

def spc_read_int64 (r : reader_t) : Except spc_error (Int × reader_t) :=
  match spc_read r 8 with
  | .error e => .error e
  | .ok (bs, r1) => .ok (natToI64 (decU64 bs), r1)

def spc_read_double (r : reader_t) : Except spc_error (Nat × reader_t) :=
  match spc_read r 8 with
  | .error e => .error e
  | .ok (bs, r1) => .ok (decU64 bs, r1)

/-- spc_read_padded: advance over size plus its alignment remainder,
returning the whole padded slice. -/
def spc_read_padded (r : reader_t) (size : Nat) : Except spc_error (List Nat × reader_t) :=
  spc_read r (size + (4 - size % 4) % 4)

/-- The memchr(ptr, 0, n) scan: index of the first zero byte. -/
def memchr0 : List Nat → Option Nat
  | [] => none
  | b :: rest => if b = 0 then some 0 else (memchr0 rest).map (· + 1)

/-- spc_read_str: find the NUL within [cursor, end), return none (NULL)
if there is none, otherwise advance as a padded read of the terminated
length and return the bytes before the NUL (what the callers strdup). -/
def spc_read_str (r : reader_t) : Except spc_error (Option (List Nat) × reader_t) :=
  match memchr0 ((r.mem.drop r.pos).take (r.endp - r.pos).toNat) with
  | none => .ok (none, r)
  | some i =>
    match spc_read_padded r (i + 1) with
    | .error e => .error e
    | .ok (bs, r1) => .ok (some (bs.take i), r1)

/-- spc_reader_next_port: pull the next collected port, or the null-port
sentinel (without moving the cursor) when the list is exhausted. -/
def spc_reader_next_port (r : reader_t) : spc_port_t × reader_t :=
  if r.next_port ≥ r.ports.length then (SPC_NULL_PORT, r)
  else (r.ports.getD r.next_port SPC_NULL_PORT, { r with next_port := r.next_port + 1 })

/-- Modelled from the spec: spc_array_set_value (array.c is not part of
the core source) grows the sequence so that index i is valid, filling
gaps with NULL, and installs the value. -/
def spc_array_set_value (a : List spc_value_t) (i : Nat) (v : spc_value_t) :
    List spc_value_t :=
  if i < a.length then a.set i v
  else a ++ List.replicate (i - a.length) .null ++ [v]

mutual
/-- spc_deserialize_value: read the tag, dispatch.  The source switch has
no case for SPC_TYPE_FD, so that tag falls into the default
unsupported-type exit.  The fuel argument only bounds the recursion depth
of the model; the source recursion consumes at least four bytes of the
bounded reader per level. -/
def spc_deserialize_value (fuel : Nat) (r : reader_t) :
    Except spc_error (spc_value_t × reader_t) :=
  match fuel with
  | 0 => .error .out_of_fuel
  | fuel + 1 =>
    match spc_read_uint32 r with
    | .error e => .error e
    | .ok (tag, r) =>
      if tag = SPC_TYPE_NULL then .ok (.null, r)
      else if tag = SPC_TYPE_BOOL then
        match spc_read_uint32 r with
        | .error e => .error e
        | .ok (b, r) => .ok (.bool b, r)
      else if tag = SPC_TYPE_UINT64 then
        match spc_read_uint64 r with
        | .error e => .error e
        | .ok (u, r) => .ok (.uint64 u, r)
      else if tag = SPC_TYPE_INT64 then
        match spc_read_int64 r with
        | .error e => .error e
        | .ok (i, r) => .ok (.int64 i, r)
      else if tag = SPC_TYPE_DOUBLE then
        match spc_read_double r with
        | .error e => .error e
        | .ok (d, r) => .ok (.double d, r)
      else if tag = SPC_TYPE_STRING then
        match spc_read_uint32 r with
        | .error e => .error e
        | .ok (_, r) =>
          match spc_read_str r with
          | .error e => .error e
          | .ok (none, _) => .error .null_str
          | .ok (some s, r) => .ok (.string s, r)
      else if tag = SPC_TYPE_ARRAY then
        match spc_deserialize_array fuel r with
        | .error e => .error e
        | .ok (a, r) => .ok (.array a, r)
      else if tag = SPC_TYPE_DICT then
        match spc_deserialize_dict fuel r with
        | .error e => .error e
        | .ok (d, r) => .ok (.dict d, r)
      else if tag = SPC_TYPE_SEND_PORT then
        let (p, r) := spc_reader_next_port r
        .ok (.send_port p, r)
      else if tag = SPC_TYPE_RECV_PORT then
        let (p, r) := spc_reader_next_port r
        .ok (.recv_port p, r)
      else if tag = SPC_TYPE_UUID then
        match spc_read r 16 with
        | .error e => .error e
        | .ok (bs, r) => .ok (.uuid bs, r)
      else if tag = SPC_TYPE_DATA then
        match spc_read_uint32 r with
        | .error e => .error e
        | .ok (size, r) =>
          match spc_read_padded r size with
          | .error e => .error e
          | .ok (bs, r) => .ok (.data (bs.take size), r)
      else .error .unknown_value_type

/-- spc_deserialize_array: discard the byte-size field, read the length,
then the element loop. -/
def spc_deserialize_array (fuel : Nat) (r : reader_t) :
    Except spc_error (List spc_value_t × reader_t) :=
  match fuel with
  | 0 => .error .out_of_fuel
  | fuel + 1 =>
    match spc_read_uint32 r with
    | .error e => .error e
    | .ok (_, r) =>
      match spc_read_uint32 r with
      | .error e => .error e
      | .ok (len, r) => spc_deserialize_array_items fuel len 0 [] r

/-- The element loop of spc_deserialize_array: spc_array_set_value at
successive indices. -/
def spc_deserialize_array_items (fuel n i : Nat) (a : List spc_value_t) (r : reader_t) :
    Except spc_error (List spc_value_t × reader_t) :=
  match fuel with
  | 0 => .error .out_of_fuel
  | fuel + 1 =>
    match n with
    | 0 => .ok (a, r)
    | n + 1 =>
      match spc_deserialize_value fuel r with
      | .error e => .error e
      | .ok (v, r) =>
        spc_deserialize_array_items fuel n (i + 1) (spc_array_set_value a i v) r

/-- spc_deserialize_dict: discard the byte-size field, read num_items,
then the item loop. -/
def spc_deserialize_dict (fuel : Nat) (r : reader_t) :
    Except spc_error (List (List Nat × spc_value_t) × reader_t) :=
  match fuel with
  | 0 => .error .out_of_fuel
  | fuel + 1 =>
    match spc_read_uint32 r with
    | .error e => .error e
    | .ok (_, r) =>
      match spc_read_uint32 r with
      | .error e => .error e
      | .ok (n, r) => spc_deserialize_dict_items fuel n [] r

/-- The item loop of spc_deserialize_dict: each decoded item is pushed at
the front of the accumulated item list (item->next = dict->items), so the
stored order is the reverse of the wire order. -/
def spc_deserialize_dict_items (fuel n : Nat) (acc : List (List Nat × spc_value_t))
    (r : reader_t) : Except spc_error (List (List Nat × spc_value_t) × reader_t) :=
  match fuel with
  | 0 => .error .out_of_fuel
  | fuel + 1 =>
    match n with
    | 0 => .ok (acc, r)
    | n + 1 =>
      match spc_read_str r with
      | .error e => .error e
      | .ok (none, _) => .error .null_str
      | .ok (some k, r) =>
        match spc_deserialize_value fuel r with
        | .error e => .error e
        | .ok (v, r) => spc_deserialize_dict_items fuel n ((k, v) :: acc) r
end

/-- The descriptor loop of spc_deserialize: peek the 8-bit type field at
byte 11 of the descriptor (read before any bounds check in the source),
consume port descriptors into the reader's port list, skip out-of-line
descriptors with a warning, exit on anything else. -/
def spc_parse_descriptors (n : Nat) (r : reader_t) : Except spc_error reader_t :=
  match n with
  | 0 => .ok r
  | n + 1 =>
    let t := (r.mem.drop r.pos).getD 11 0
    if t = MACH_MSG_PORT_DESCRIPTOR then
      match spc_read r portDescSize with
      | .error e => .error e
      | .ok (bs, r1) =>
        spc_parse_descriptors n
          { r1 with ports := r1.ports ++ [⟨decU32 (bs.take 4), bs.getD 10 0⟩] }
    else if t = MACH_MSG_OOL_DESCRIPTOR then
      match spc_read r oolDescSize with
      | .error e => .error e
      | .ok (_, r1) => spc_parse_descriptors n r1
    else if t = MACH_MSG_OOL_PORTS_DESCRIPTOR then
      match spc_read r oolPortsDescSize with
      | .error e => .error e
      | .ok (_, r1) => spc_parse_descriptors n r1
    else .error .unknown_descriptor

def MSGID_CONNECTION_INTERRUPTED : Nat := 71

/-- spc_deserialize.  The connection-interrupted id builds the synthetic
error dictionary but then prints and exits (a TODO in the source), which
the model renders as the fatal conn_interrupted outcome.  A NULL return
(bad magic, non-dictionary root) is .ok none.  The local_port name is
copied from the remote-port header field, as in the source. -/
def spc_deserialize (m : spc_mach_message_t) :
    Except spc_error (Option spc_message_t) :=
  let r0 : reader_t :=
    ⟨m.buf, 0, (m.header.msgh_size : Int) - machHeaderSize, 0, []⟩
  if m.header.msgh_id = MSGID_CONNECTION_INTERRUPTED then
    let _dict : List (List Nat × spc_value_t) :=
      [([101, 114, 114, 111, 114],
        .string [67, 111, 110, 110, 101, 99, 116, 105, 111, 110, 32,
                 105, 110, 116, 101, 114, 114, 117, 112, 116, 101, 100])]
    .error .conn_interrupted
  else
    let step1 : Except spc_error reader_t :=
      if m.header.msgh_bits &&& MACH_MSGH_BITS_COMPLEX ≠ 0 then
        match spc_read r0 machBodySize with
        | .error e => .error e
        | .ok (body, r1) => spc_parse_descriptors (decU32 body) r1
      else .ok r0
    match step1 with
    | .error e => .error e
    | .ok r1 =>
      match spc_read r1 8 with
      | .error e => .error e
      | .ok (magic, r2) =>
        if magic ≠ magicBytes then .ok none
        else
          match spc_deserialize_value (m.header.msgh_size + 1) r2 with
          | .error e => .error e
          | .ok (v, _) =>
            match v with
            | .dict items =>
              .ok (some
                { remote_port := ⟨m.header.msgh_remote_port,
                    MACH_MSGH_BITS_REMOTE m.header.msgh_bits⟩
                  local_port := ⟨m.header.msgh_remote_port,
                    MACH_MSGH_BITS_LOCAL m.header.msgh_bits⟩
                  id := m.header.msgh_id
                  content := items })
            | _ => .ok none

/-! ## Pure view of the encoder output

The writer only appends, and every backpatch lands inside the region the
patching call itself appended, so the bytes a call contributes are a pure
function of the value.  These functions state that contribution; the
locality lemmas below prove the writer produces exactly these bytes. -/

/-- Append the 4-byte alignment padding. -/
def padded (bs : List Nat) : List Nat :=
  bs ++ List.replicate ((4 - bs.length % 4) % 4) 0

mutual
/-- The bytes spc_serialize_value appends for a value. -/
def emitValue : spc_value_t → List Nat
  | .null => encU32 SPC_TYPE_NULL
  | .bool b => encU32 SPC_TYPE_BOOL ++ encU32 b
  | .uint64 u => encU32 SPC_TYPE_UINT64 ++ encU64 u
  | .int64 i => encU32 SPC_TYPE_INT64 ++ encU64 (i64ToNat i)
  | .double d => encU32 SPC_TYPE_DOUBLE ++ encU64 d
  | .string s => encU32 SPC_TYPE_STRING ++ encU32 (s.length + 1) ++ padded (s ++ [0])
  | .data bs => encU32 SPC_TYPE_DATA ++ encU32 bs.length ++ padded bs
  | .uuid bs => encU32 SPC_TYPE_UUID ++ bs
  | .array vs => encU32 SPC_TYPE_ARRAY ++ emitArrayBody vs
  | .dict its => encU32 SPC_TYPE_DICT ++ emitDictBody its
  | .fd _ => encU32 SPC_TYPE_FD
  | .send_port _ => encU32 SPC_TYPE_SEND_PORT
  | .recv_port _ => encU32 SPC_TYPE_RECV_PORT

/-- The bytes spc_write_array appends: patched byte size, count,
elements. -/
def emitArrayBody (vs : List spc_value_t) : List Nat :=
  encU32 (4 + (emitItems vs).length) ++ encU32 vs.length ++ emitItems vs

/-- The bytes of the element loop. -/
def emitItems : List spc_value_t → List Nat
  | [] => []
  | v :: rest => emitValue v ++ emitItems rest

/-- The bytes spc_write_dict appends. -/
def emitDictBody (its : List (List Nat × spc_value_t)) : List Nat :=
  encU32 (4 + (emitEntries its).length) ++ encU32 its.length ++ emitEntries its

/-- The bytes of the item loop: padded NUL-terminated key, then value. -/
def emitEntries : List (List Nat × spc_value_t) → List Nat
  | [] => []
  | (k, v) :: rest => padded (k ++ [0]) ++ emitValue v ++ emitEntries rest
end

mutual
/-- The ports spc_serialize_value collects, in pre-order. -/
def portsOfValue : spc_value_t → List spc_port_t
  | .array vs => portsOfItems vs
  | .dict its => portsOfEntries its
  | .fd p => [p]
  | .send_port p => [p]
  | .recv_port p => [p]
  | _ => []

def portsOfItems : List spc_value_t → List spc_port_t
  | [] => []
  | v :: rest => portsOfValue v ++ portsOfItems rest

def portsOfEntries : List (List Nat × spc_value_t) → List spc_port_t
  | [] => []
  | (_, v) :: rest => portsOfValue v ++ portsOfEntries rest
end

/-! ## Round-trip image and well-formedness -/

mutual
/-- The tree spc_deserialize_value rebuilds from the wire image of a value
(when the reader's port list supplies exactly the value's own ports): the
same tags and scalar bytes, arrays in order, every dictionary's stored
item list reversed by the front-insertion of the decoder. -/
def rtValue : spc_value_t → spc_value_t
  | .array vs => .array (rtItems vs)
  | .dict its => .dict (rtEntries its).reverse
  | v => v

def rtItems : List spc_value_t → List spc_value_t
  | [] => []
  | v :: rest => rtValue v :: rtItems rest

def rtEntries : List (List Nat × spc_value_t) → List (List Nat × spc_value_t)
  | [] => []
  | (k, v) :: rest => (k, rtValue v) :: rtEntries rest
end

/-- A byte list that a C char buffer can hold. -/
def bytesOk (bs : List Nat) : Bool := bs.all (fun b => b < 256)

/-- A byte list that a NUL-terminated C string can hold. -/
def strOk (s : List Nat) : Bool := s.all (fun b => b ≠ 0 && b < 256)

mutual
/-- Values representable by the C structures and accepted by both
directions of the codec: scalar payloads within their field widths,
strings NUL-free, uuids exactly 16 bytes, container and blob sizes within
the 32-bit wire fields, port names within 32 bits and port types within
the 8-bit descriptor disposition field, and no FD values (the decoder
switch rejects that tag). -/
def wfValue : spc_value_t → Bool
  | .null => true
  | .bool b => b < 4294967296
  | .uint64 u => u < 18446744073709551616
  | .int64 i => decide (-9223372036854775808 ≤ i) && decide (i < 9223372036854775808)
  | .double d => d < 18446744073709551616
  | .string s => strOk s && s.length + 1 < 4294967296
  | .data bs => bytesOk bs && bs.length < 4294967296
  | .uuid bs => bs.length = 16 && bytesOk bs
  | .array vs => vs.length < 4294967296 && wfItems vs
  | .dict its => its.length < 4294967296 && wfEntries its
  | .fd _ => false
  | .send_port p => p.name < 4294967296 && p.type < 256
  | .recv_port p => p.name < 4294967296 && p.type < 256

def wfItems : List spc_value_t → Bool
  | [] => true
  | v :: rest => wfValue v && wfItems rest

def wfEntries : List (List Nat × spc_value_t) → Bool
  | [] => true
  | (k, v) :: rest =>
    strOk k && k.length + 1 < 4294967296 && wfValue v && wfEntries rest
end

/-! ## Fuel bound for the decoder -/

mutual
/-- Sufficient fuel for spc_deserialize_value on the wire image of a
value. -/
def dfValue : spc_value_t → Nat
  | .array vs => 2 + dfItems vs
  | .dict its => 2 + dfEntries its
  | _ => 1

def dfItems : List spc_value_t → Nat
  | [] => 1
  | v :: rest => 1 + max (dfValue v) (dfItems rest)

def dfEntries : List (List Nat × spc_value_t) → Nat
  | [] => 1
  | (_, v) :: rest => 1 + max (dfValue v) (dfEntries rest)
end

/-- The body-plus-descriptor region the serializer places before the
inline bytes: empty when no ports were collected, otherwise the 4-byte
descriptor count followed by one port descriptor per collected port, in
collection order. -/
def descRegion (ps : List spc_port_t) : List Nat :=
  if ps.length = 0 then [] else encU32 ps.length ++ (ps.map encPortDescriptor).flatten

/-- The port truncation the descriptor encoding applies: 32-bit name,
8-bit disposition. -/
def truncPort (p : spc_port_t) : spc_port_t :=
  ⟨p.name % 4294967296, p.type % 256⟩

mutual
/-- The port payloads of a decoded tree in wire order: decoded
dictionaries store their items in reverse wire order, so the wire-order
walk visits a stored dictionary list from its tail. -/
def wirePortsValue : spc_value_t → List spc_port_t
  | .array vs => wirePortsItems vs
  | .dict its => wirePortsEntriesRev its
  | .fd p => [p]
  | .send_port p => [p]
  | .recv_port p => [p]
  | _ => []

def wirePortsItems : List spc_value_t → List spc_port_t
  | [] => []
  | v :: rest => wirePortsValue v ++ wirePortsItems rest

def wirePortsEntriesRev : List (List Nat × spc_value_t) → List spc_port_t
  | [] => []
  | (_, v) :: rest => wirePortsEntriesRev rest ++ wirePortsValue v
end

/-- The content dictionary of a successful decode, if any. -/
def decodedContent (m : spc_mach_message_t) : Option (List (List Nat × spc_value_t)) :=
  match spc_deserialize m with
  | .ok (some msg) => some msg.content
  | _ => none

/-! ## Concrete inputs used by counterexamples and witnesses -/

/-- A two-entry dictionary message: content a: NULL, b: BOOL 1. -/
def msgC1 : spc_message_t :=
  ⟨⟨0, 0⟩, ⟨0, 0⟩, 0, [([97], .null), ([98], .bool 1)]⟩

/-- The wire bytes of the empty-dictionary envelope: magic, DICT tag,
byte size 4, count 0. -/
def emptyDictWire : List Nat :=
  [67, 80, 88, 64, 5, 0, 0, 0, 0, 240, 0, 0, 4, 0, 0, 0, 0, 0, 0, 0]

/-- A well-formed empty-dictionary wire message whose header carries
remote port 5 and local port 7. -/
def machC2 : spc_mach_message_t := ⟨⟨0, 44, 5, 7, 0⟩, emptyDictWire⟩

/-- The same wire message truncated by one byte: msgh_size 43 instead of
44, so the final count read needs byte 20 of a 19-byte window. -/
def machTrunc : spc_mach_message_t := ⟨⟨0, 43, 5, 7, 0⟩, emptyDictWire⟩

/-- A wire message bearing the connection-interrupted id 71. -/
def mach71 : spc_mach_message_t := ⟨⟨0, 44, 0, 0, 71⟩, emptyDictWire⟩

/-- A reader positioned on an FD tag with one port still available. -/
def readerFD : reader_t := ⟨[0, 176, 0, 0], 0, 4, 0, [⟨9, 3⟩]⟩

/-- A single send-port message whose port type 300 does not fit the
8-bit descriptor disposition field. -/
def msgC6 : spc_message_t :=
  ⟨⟨0, 0⟩, ⟨0, 0⟩, 0, [([112], .send_port ⟨1, 300⟩)]⟩

/-- A well-formed single send-port message (disposition fits 8 bits). -/
def msgC6w : spc_message_t :=
  ⟨⟨0, 0⟩, ⟨0, 0⟩, 0, [([112], .send_port ⟨1, 44⟩)]⟩

/-! ## Byte-level basics -/

theorem encU32_length (v : Nat) : (encU32 v).length = 4 := by
  simp [encU32]

theorem encU64_length (v : Nat) : (encU64 v).length = 8 := by
  simp [encU64, encU32]

theorem padded_length (bs : List Nat) :
    (padded bs).length = bs.length + (4 - bs.length % 4) % 4 := by
  simp [padded]

theorem padded_length_dvd (bs : List Nat) : 4 ∣ (padded bs).length := by
  rw [padded_length]
  omega

theorem decU32_encU32 (v : Nat) : decU32 (encU32 v) = v % 4294967296 := by
  simp only [decU32, encU32, List.getD]
  simp
  omega

theorem decU64_encU64 (v : Nat) : decU64 (encU64 v) = v % 18446744073709551616 := by
  have h4 : (encU32 (v % 4294967296)).length = 4 := encU32_length _
  simp only [decU64, encU64, List.take_left' h4, List.drop_left' h4, decU32_encU32]
  omega

theorem natToI64_i64ToNat (i : Int)
    (h1 : -9223372036854775808 ≤ i) (h2 : i < 9223372036854775808) :
    natToI64 (i64ToNat i) = i := by
  unfold natToI64 i64ToNat
  split <;> omega

theorem patchU32_append (a mid rest : List Nat) (v : Nat) (h : mid.length = 4) :
    patchU32 (a ++ (mid ++ rest)) a.length v = a ++ (encU32 v ++ rest) := by
  unfold patchU32
  simp only [List.append_assoc]
  rw [List.take_left, List.drop_append, List.drop_left' h]

/-! ## Bit lemmas for the complex flag -/

theorem land_eq_zero_of_lt_two_pow_31 (x : Nat) (h : x < 2 ^ 31) :
    x &&& MACH_MSGH_BITS_COMPLEX = 0 := by
  apply Nat.eq_of_testBit_eq
  intro i
  rw [Nat.testBit_and, Nat.zero_testBit]
  rcases eq_or_ne i 31 with rfl | hne
  · rw [Nat.testBit_lt_two_pow h]
    rfl
  · have : (MACH_MSGH_BITS_COMPLEX).testBit i = false := by
      have : MACH_MSGH_BITS_COMPLEX = 2 ^ 31 := by norm_num [MACH_MSGH_BITS_COMPLEX]
      rw [this, Nat.testBit_two_pow]
      simpa using fun hh => hne hh.symm
    simp [this]

theorem complex_bit_set (x : Nat) (hx : x < 2 ^ 32) :
    ((MACH_MSGH_BITS_COMPLEX ||| x) % 4294967296) &&& MACH_MSGH_BITS_COMPLEX ≠ 0 := by
  have hc : MACH_MSGH_BITS_COMPLEX < 2 ^ 32 := by norm_num [MACH_MSGH_BITS_COMPLEX]
  have hlt : (MACH_MSGH_BITS_COMPLEX ||| x) < 2 ^ 32 := Nat.or_lt_two_pow hc hx
  rw [show (4294967296 : Nat) = 2 ^ 32 from rfl, Nat.mod_eq_of_lt hlt]
  intro h0
  have htb : ((MACH_MSGH_BITS_COMPLEX ||| x) &&& MACH_MSGH_BITS_COMPLEX).testBit 31 = false := by
    rw [h0]
    exact Nat.zero_testBit 31
  rw [Nat.testBit_and, Nat.testBit_or] at htb
  have h31 : (MACH_MSGH_BITS_COMPLEX).testBit 31 = true := by
    have : MACH_MSGH_BITS_COMPLEX = 2 ^ 31 := by norm_num [MACH_MSGH_BITS_COMPLEX]
    rw [this]
    exact Nat.testBit_two_pow_self
  simp [h31] at htb

theorem MACH_MSGH_BITS_lt (rbits lbits : Nat) (hr : rbits < 256) (hl : lbits < 256) :
    MACH_MSGH_BITS rbits lbits < 2 ^ 31 := by
  unfold MACH_MSGH_BITS
  have h1 : rbits < 2 ^ 16 := by omega
  have h2 : lbits <<< 8 < 2 ^ 16 := by
    rw [Nat.shiftLeft_eq]
    norm_num
    omega
  calc (rbits ||| lbits <<< 8) % 4294967296 ≤ rbits ||| lbits <<< 8 :=
        Nat.mod_le _ _
    _ < 2 ^ 16 := Nat.or_lt_two_pow h1 h2
    _ < 2 ^ 31 := by norm_num

/-! ## Locality of the serializer

Every serializing call appends exactly the pure emission of its argument,
collects exactly its pre-order ports, and returns the length of the
appended region (the backpatch lands inside that region). -/

theorem serialize_locality_aux :
    (∀ (_ : writer_t) (v : spc_value_t), ∀ (w : writer_t),
        spc_serialize_value w v =
          ({ buf := w.buf ++ emitValue v, ports := w.ports ++ portsOfValue v },
            (emitValue v).length)) ∧
    (∀ (_ : writer_t) (its : List (List Nat × spc_value_t)), ∀ (w : writer_t),
        spc_write_dict w its =
          ({ buf := w.buf ++ emitDictBody its, ports := w.ports ++ portsOfEntries its },
            (emitDictBody its).length)) ∧
    (∀ (_ : writer_t) (its : List (List Nat × spc_value_t)), ∀ (w : writer_t),
        spc_write_dict_items w its =
          ({ buf := w.buf ++ emitEntries its, ports := w.ports ++ portsOfEntries its },
            (emitEntries its).length)) ∧
    (∀ (_ : writer_t) (vs : List spc_value_t), ∀ (w : writer_t),
        spc_write_array w vs =
          ({ buf := w.buf ++ emitArrayBody vs, ports := w.ports ++ portsOfItems vs },
            (emitArrayBody vs).length)) ∧
    (∀ (_ : writer_t) (vs : List spc_value_t), ∀ (w : writer_t),
        spc_write_array_items w vs =
          ({ buf := w.buf ++ emitItems vs, ports := w.ports ++ portsOfItems vs },
            (emitItems vs).length)) := by
  refine spc_serialize_value.mutual_induct
    (fun _ v => ∀ (w : writer_t), spc_serialize_value w v =
      ({ buf := w.buf ++ emitValue v, ports := w.ports ++ portsOfValue v },
        (emitValue v).length))
    (fun _ its => ∀ (w : writer_t), spc_write_dict w its =
      ({ buf := w.buf ++ emitDictBody its, ports := w.ports ++ portsOfEntries its },
        (emitDictBody its).length))
    (fun _ its => ∀ (w : writer_t), spc_write_dict_items w its =
      ({ buf := w.buf ++ emitEntries its, ports := w.ports ++ portsOfEntries its },
        (emitEntries its).length))
    (fun _ vs => ∀ (w : writer_t), spc_write_array w vs =
      ({ buf := w.buf ++ emitArrayBody vs, ports := w.ports ++ portsOfItems vs },
        (emitArrayBody vs).length))
    (fun _ vs => ∀ (w : writer_t), spc_write_array_items w vs =
      ({ buf := w.buf ++ emitItems vs, ports := w.ports ++ portsOfItems vs },
        (emitItems vs).length))
    ?_ ?_ ?_ ?_ ?_ ?_ ?_ ?_ ?_ ?_ ?_ ?_ ?_ ?_ ?_ ?_ ?_ ?_ ?_
  -- null
  · intro _ _ _ _ w
    simp [spc_serialize_value, spc_write_uint32, emitValue, portsOfValue, tagOf,
      encU32_length]
  -- bool
  · intro _ _ _ b _ _ _ _ w
    simp [spc_serialize_value, spc_write_uint32, emitValue, portsOfValue, tagOf,
      encU32_length, List.append_assoc]
  -- uint64
  · intro _ _ _ u _ _ _ _ w
    simp [spc_serialize_value, spc_write_uint32, spc_write_uint64, emitValue,
      portsOfValue, tagOf, encU32_length, encU64_length, List.append_assoc]
  -- int64
  · intro _ _ _ i _ _ _ _ w
    simp [spc_serialize_value, spc_write_uint32, spc_write_int64, emitValue,
      portsOfValue, tagOf, encU32_length, encU64_length, List.append_assoc]
  -- double
  · intro _ _ _ d _ _ _ _ w
    simp [spc_serialize_value, spc_write_uint32, spc_write_double, emitValue,
      portsOfValue, tagOf, encU32_length, encU64_length, List.append_assoc]
  -- string
  · intro _ _ _ s _ _ _ _ _ _ _ w
    simp [spc_serialize_value, spc_write_uint32, spc_write_str, spc_write_padded,
      emitValue, portsOfValue, tagOf, padded, encU32_length, List.append_assoc]
    omega
  -- data
  · intro _ _ _ bs _ _ _ _ _ _ _ w
    simp [spc_serialize_value, spc_write_uint32, spc_write_padded, emitValue,
      portsOfValue, tagOf, padded, encU32_length, List.append_assoc]
    omega
  -- uuid
  · intro _ _ _ bs _ _ _ _ w
    simp [spc_serialize_value, spc_write_uint32, spc_write, emitValue,
      portsOfValue, tagOf, encU32_length, List.append_assoc]
  -- array
  · intro _ _ _ vs _ _ _ _ ih w
    simp [spc_serialize_value, spc_write_uint32, tagOf, ih, emitValue,
      portsOfValue, encU32_length, List.append_assoc]
  -- dict
  · intro _ _ _ its _ _ _ _ ih w
    simp [spc_serialize_value, spc_write_uint32, tagOf, ih, emitValue,
      portsOfValue, encU32_length, List.append_assoc]
  -- fd
  · intro _ _ _ p _ w
    simp [spc_serialize_value, spc_write_uint32, spc_write_port, emitValue,
      portsOfValue, tagOf, encU32_length]
  -- send_port
  · intro _ _ _ p _ w
    simp [spc_serialize_value, spc_write_uint32, spc_write_port, emitValue,
      portsOfValue, tagOf, encU32_length]
  -- recv_port
  · intro _ _ _ p _ w
    simp [spc_serialize_value, spc_write_uint32, spc_write_port, emitValue,
      portsOfValue, tagOf, encU32_length]
  -- dict body
  · intro _ its _ _ _ _ _ _ _ _ _ ih w
    simp [spc_write_dict, spc_write_uint32, ih, emitDictBody, patchU32_append,
      encU32_length, List.append_assoc]
    omega
  -- dict items nil
  · intro _ w
    simp [spc_write_dict_items, emitEntries, portsOfEntries]
  -- dict items cons
  · intro _ k v rest _ _ _ _ _ _ _ _ _ ih1 ih3 w
    simp [spc_write_dict_items, spc_write_str, spc_write_padded, ih1, ih3,
      emitEntries, portsOfEntries, padded, List.append_assoc]
    omega
  -- array body
  · intro _ vs _ _ _ _ _ _ _ _ _ ih w
    simp [spc_write_array, spc_write_uint32, ih, emitArrayBody, patchU32_append,
      encU32_length, List.append_assoc]
    omega
  -- array items nil
  · intro _ w
    simp [spc_write_array_items, emitItems, portsOfItems]
  -- array items cons
  · intro _ v rest _ _ _ _ _ _ ih1 ih5 w
    simp [spc_write_array_items, ih1, ih5, emitItems, portsOfItems,
      List.append_assoc]

/-- What spc_serialize_value does to any writer state. -/
theorem spc_serialize_value_spec (w : writer_t) (v : spc_value_t) :
    spc_serialize_value w v =
      ({ buf := w.buf ++ emitValue v, ports := w.ports ++ portsOfValue v },
        (emitValue v).length) :=
  serialize_locality_aux.1 w v w

/-- What spc_write_dict does to any writer state. -/
theorem spc_write_dict_spec (w : writer_t) (its : List (List Nat × spc_value_t)) :
    spc_write_dict w its =
      ({ buf := w.buf ++ emitDictBody its, ports := w.ports ++ portsOfEntries its },
        (emitDictBody its).length) :=
  serialize_locality_aux.2.1 w its w

/-- What spc_write_array does to any writer state. -/
theorem spc_write_array_spec (w : writer_t) (vs : List spc_value_t) :
    spc_write_array w vs =
      ({ buf := w.buf ++ emitArrayBody vs, ports := w.ports ++ portsOfItems vs },
        (emitArrayBody vs).length) :=
  serialize_locality_aux.2.2.2.1 w vs w

/-! ## Reader primitives on exact slices -/

theorem take_split (l x y : List Nat) (h : l.take (x.length + y.length) = x ++ y) :
    l.take x.length = x ∧ (l.drop x.length).take y.length = y := by
  rw [List.take_add] at h
  have hlen : (l.take x.length).length = x.length := by
    have hl := congrArg List.length h
    simp only [List.length_append, List.length_take] at hl ⊢
    omega
  exact List.append_inj h hlen

theorem spc_read_at (r : reader_t) (bs : List Nat)
    (hmem : (r.mem.drop r.pos).take bs.length = bs)
    (hend : (r.pos + bs.length : Int) ≤ r.endp) :
    spc_read r bs.length = .ok (bs, { r with pos := r.pos + bs.length }) := by
  unfold spc_read
  rw [if_neg (by omega), hmem]

theorem spc_read_uint32_at (r : reader_t) (v : Nat)
    (hmem : (r.mem.drop r.pos).take 4 = encU32 v)
    (hend : (r.pos + 4 : Int) ≤ r.endp) :
    spc_read_uint32 r = .ok (v % 4294967296, { r with pos := r.pos + 4 }) := by
  have hr := spc_read_at r (encU32 v)
    (by rw [encU32_length]; exact hmem) (by rw [encU32_length]; exact hend)
  rw [encU32_length] at hr
  unfold spc_read_uint32
  simp [hr, decU32_encU32]

theorem spc_read_uint64_at (r : reader_t) (v : Nat)
    (hmem : (r.mem.drop r.pos).take 8 = encU64 v)
    (hend : (r.pos + 8 : Int) ≤ r.endp) :
    spc_read_uint64 r = .ok (v % 18446744073709551616, { r with pos := r.pos + 8 }) := by
  have hr := spc_read_at r (encU64 v)
    (by rw [encU64_length]; exact hmem) (by rw [encU64_length]; exact hend)
  rw [encU64_length] at hr
  unfold spc_read_uint64
  simp [hr, decU64_encU64]

theorem spc_read_int64_at (r : reader_t) (v : Nat)
    (hmem : (r.mem.drop r.pos).take 8 = encU64 v)
    (hend : (r.pos + 8 : Int) ≤ r.endp) :
    spc_read_int64 r =
      .ok (natToI64 (v % 18446744073709551616), { r with pos := r.pos + 8 }) := by
  have hr := spc_read_at r (encU64 v)
    (by rw [encU64_length]; exact hmem) (by rw [encU64_length]; exact hend)
  rw [encU64_length] at hr
  unfold spc_read_int64
  simp [hr, decU64_encU64]

theorem spc_read_double_at (r : reader_t) (v : Nat)
    (hmem : (r.mem.drop r.pos).take 8 = encU64 v)
    (hend : (r.pos + 8 : Int) ≤ r.endp) :
    spc_read_double r = .ok (v % 18446744073709551616, { r with pos := r.pos + 8 }) := by
  have hr := spc_read_at r (encU64 v)
    (by rw [encU64_length]; exact hmem) (by rw [encU64_length]; exact hend)
  rw [encU64_length] at hr
  unfold spc_read_double
  simp [hr, decU64_encU64]

theorem spc_read_padded_at (r : reader_t) (size : Nat) (bs : List Nat)
    (hlen : bs.length = size + (4 - size % 4) % 4)
    (hmem : (r.mem.drop r.pos).take bs.length = bs)
    (hend : (r.pos + bs.length : Int) ≤ r.endp) :
    spc_read_padded r size = .ok (bs, { r with pos := r.pos + bs.length }) := by
  unfold spc_read_padded
  rw [← hlen]
  exact spc_read_at r bs hmem hend

theorem memchr0_cons_zero (s rest : List Nat) (hs : ∀ b ∈ s, b ≠ 0) :
    memchr0 (s ++ 0 :: rest) = some s.length := by
  induction s with
  | nil => simp [memchr0]
  | cons b t ih =>
    have hb : b ≠ 0 := hs b (by simp)
    rw [List.cons_append, memchr0, if_neg hb,
      ih (fun x hx => hs x (by simp [hx]))]
    rfl

theorem spc_read_str_at (r : reader_t) (s : List Nat)
    (hs : ∀ b ∈ s, b ≠ 0)
    (hmem : (r.mem.drop r.pos).take (padded (s ++ [0])).length = padded (s ++ [0]))
    (hend : (r.pos + (padded (s ++ [0])).length : Int) ≤ r.endp) :
    spc_read_str r =
      .ok (some s, { r with pos := r.pos + (padded (s ++ [0])).length }) := by
  have hL : (padded (s ++ [0])).length =
      (s.length + 1) + (4 - (s.length + 1) % 4) % 4 := by
    rw [padded_length]
    simp
  have hshape : padded (s ++ [0]) =
      s ++ 0 :: List.replicate ((4 - (s.length + 1) % 4) % 4) 0 := by
    simp [padded, List.append_assoc]
  have hB : (padded (s ++ [0])).length ≤ ((r.endp - r.pos).toNat) := by
    omega
  have hXtake : ((r.mem.drop r.pos).take (r.endp - r.pos).toNat).take
      (padded (s ++ [0])).length = padded (s ++ [0]) := by
    rw [List.take_take, min_eq_left hB]
    exact hmem
  have hX : (r.mem.drop r.pos).take (r.endp - r.pos).toNat =
      s ++ 0 :: (List.replicate ((4 - (s.length + 1) % 4) % 4) 0 ++
        ((r.mem.drop r.pos).take (r.endp - r.pos).toNat).drop
          (padded (s ++ [0])).length) := by
    conv_lhs => rw [← List.take_append_drop (padded (s ++ [0])).length
      ((r.mem.drop r.pos).take (r.endp - r.pos).toNat)]
    rw [hXtake]
    rw [hshape]
    simp [List.append_assoc]
  have hfound : memchr0 ((r.mem.drop r.pos).take (r.endp - r.pos).toNat) =
      some s.length := by
    rw [hX]
    exact memchr0_cons_zero s _ hs
  have hpad := spc_read_padded_at r (s.length + 1) (padded (s ++ [0])) hL hmem hend
  have htake : (padded (s ++ [0])).take s.length = s := by
    rw [hshape]
    exact List.take_left s _
  unfold spc_read_str
  rw [hfound]
  simp [hpad, htake]

theorem spc_reader_next_port_at (r : reader_t) (p : spc_port_t) (rest : List spc_port_t)
    (h : r.ports.drop r.next_port = p :: rest) :
    spc_reader_next_port r = (p, { r with next_port := r.next_port + 1 }) := by
  have hk : r.next_port < r.ports.length := by
    by_contra hge
    rw [List.drop_eq_nil_of_le (by omega)] at h
    exact List.noConfusion h
  have hget : r.ports[r.next_port]? = some p := by
    have hh := List.head?_drop r.ports r.next_port
    rw [h] at hh
    exact hh.symm
  unfold spc_reader_next_port
  rw [if_neg (by omega)]
  simp [List.getD, hget]

theorem spc_reader_next_port_exhausted (r : reader_t)
    (h : r.ports.length ≤ r.next_port) :
    spc_reader_next_port r = (SPC_NULL_PORT, r) := by
  unfold spc_reader_next_port
  rw [if_pos (by omega)]

/-! ## Decoding the emitted bytes -/

theorem drop_cancel (P : List spc_port_t) (k : Nat) (xs ys : List spc_port_t)
    (h : P.drop k = xs ++ ys) : P.drop (k + xs.length) = ys := by
  have h2 := congrArg (List.drop xs.length) h
  rw [List.drop_drop, List.drop_left] at h2
  exact h2

theorem strOk_nonzero (s : List Nat) (h : strOk s = true) : ∀ b ∈ s, b ≠ 0 := by
  intro b hb
  simp only [strOk, List.all_eq_true] at h
  have hb2 := h b hb
  simp at hb2
  exact hb2.1

theorem i64ToNat_lt (v : Int) : i64ToNat v < 18446744073709551616 := by
  unfold i64ToNat
  omega

theorem spc_array_set_value_append (a : List spc_value_t) (v : spc_value_t) :
    spc_array_set_value a a.length v = a ++ [v] := by
  simp [spc_array_set_value]

set_option maxHeartbeats 1000000

theorem deserialize_emit_aux :
    (∀ (_ : writer_t) (v : spc_value_t), ∀ (f : Nat) (r : reader_t) (rest : List spc_port_t),
        wfValue v = true → dfValue v ≤ f →
        (r.mem.drop r.pos).take (emitValue v).length = emitValue v →
        (r.pos + (emitValue v).length : Int) ≤ r.endp →
        r.ports.drop r.next_port = portsOfValue v ++ rest →
        spc_deserialize_value f r =
          .ok (rtValue v, { r with pos := r.pos + (emitValue v).length, next_port := r.next_port + (portsOfValue v).length })) ∧
    (∀ (_ : writer_t) (its : List (List Nat × spc_value_t)),
        ∀ (f : Nat) (r : reader_t) (rest : List spc_port_t),
        wfEntries its = true → its.length < 4294967296 → 1 + dfEntries its ≤ f →
        (r.mem.drop r.pos).take (emitDictBody its).length = emitDictBody its →
        (r.pos + (emitDictBody its).length : Int) ≤ r.endp →
        r.ports.drop r.next_port = portsOfEntries its ++ rest →
        spc_deserialize_dict f r =
          .ok ((rtEntries its).reverse,
            { r with pos := r.pos + (emitDictBody its).length, next_port := r.next_port + (portsOfEntries its).length })) ∧
    (∀ (_ : writer_t) (its : List (List Nat × spc_value_t)),
        ∀ (f : Nat) (r : reader_t) (rest : List spc_port_t)
          (acc : List (List Nat × spc_value_t)),
        wfEntries its = true → dfEntries its ≤ f →
        (r.mem.drop r.pos).take (emitEntries its).length = emitEntries its →
        (r.pos + (emitEntries its).length : Int) ≤ r.endp →
        r.ports.drop r.next_port = portsOfEntries its ++ rest →
        spc_deserialize_dict_items f its.length acc r =
          .ok ((rtEntries its).reverse ++ acc,
            { r with pos := r.pos + (emitEntries its).length, next_port := r.next_port + (portsOfEntries its).length })) ∧
    (∀ (_ : writer_t) (vs : List spc_value_t),
        ∀ (f : Nat) (r : reader_t) (rest : List spc_port_t),
        wfItems vs = true → vs.length < 4294967296 → 1 + dfItems vs ≤ f →
        (r.mem.drop r.pos).take (emitArrayBody vs).length = emitArrayBody vs →
        (r.pos + (emitArrayBody vs).length : Int) ≤ r.endp →
        r.ports.drop r.next_port = portsOfItems vs ++ rest →
        spc_deserialize_array f r =
          .ok (rtItems vs,
            { r with pos := r.pos + (emitArrayBody vs).length, next_port := r.next_port + (portsOfItems vs).length })) ∧
    (∀ (_ : writer_t) (vs : List spc_value_t),
        ∀ (f : Nat) (r : reader_t) (rest : List spc_port_t) (a : List spc_value_t),
        wfItems vs = true → dfItems vs ≤ f →
        (r.mem.drop r.pos).take (emitItems vs).length = emitItems vs →
        (r.pos + (emitItems vs).length : Int) ≤ r.endp →
        r.ports.drop r.next_port = portsOfItems vs ++ rest →
        spc_deserialize_array_items f vs.length a.length a r =
          .ok (a ++ rtItems vs,
            { r with pos := r.pos + (emitItems vs).length, next_port := r.next_port + (portsOfItems vs).length })) := by
  refine spc_serialize_value.mutual_induct
    (fun _ v => ∀ (f : Nat) (r : reader_t) (rest : List spc_port_t),
        wfValue v = true → dfValue v ≤ f →
        (r.mem.drop r.pos).take (emitValue v).length = emitValue v →
        (r.pos + (emitValue v).length : Int) ≤ r.endp →
        r.ports.drop r.next_port = portsOfValue v ++ rest →
        spc_deserialize_value f r =
          .ok (rtValue v, { r with pos := r.pos + (emitValue v).length, next_port := r.next_port + (portsOfValue v).length }))
    (fun _ its => ∀ (f : Nat) (r : reader_t) (rest : List spc_port_t),
        wfEntries its = true → its.length < 4294967296 → 1 + dfEntries its ≤ f →
        (r.mem.drop r.pos).take (emitDictBody its).length = emitDictBody its →
        (r.pos + (emitDictBody its).length : Int) ≤ r.endp →
        r.ports.drop r.next_port = portsOfEntries its ++ rest →
        spc_deserialize_dict f r =
          .ok ((rtEntries its).reverse,
            { r with pos := r.pos + (emitDictBody its).length, next_port := r.next_port + (portsOfEntries its).length }))
    (fun _ its => ∀ (f : Nat) (r : reader_t) (rest : List spc_port_t)
          (acc : List (List Nat × spc_value_t)),
        wfEntries its = true → dfEntries its ≤ f →
        (r.mem.drop r.pos).take (emitEntries its).length = emitEntries its →
        (r.pos + (emitEntries its).length : Int) ≤ r.endp →
        r.ports.drop r.next_port = portsOfEntries its ++ rest →
        spc_deserialize_dict_items f its.length acc r =
          .ok ((rtEntries its).reverse ++ acc,
            { r with pos := r.pos + (emitEntries its).length, next_port := r.next_port + (portsOfEntries its).length }))
    (fun _ vs => ∀ (f : Nat) (r : reader_t) (rest : List spc_port_t),
        wfItems vs = true → vs.length < 4294967296 → 1 + dfItems vs ≤ f →
        (r.mem.drop r.pos).take (emitArrayBody vs).length = emitArrayBody vs →
        (r.pos + (emitArrayBody vs).length : Int) ≤ r.endp →
        r.ports.drop r.next_port = portsOfItems vs ++ rest →
        spc_deserialize_array f r =
          .ok (rtItems vs,
            { r with pos := r.pos + (emitArrayBody vs).length, next_port := r.next_port + (portsOfItems vs).length }))
    (fun _ vs => ∀ (f : Nat) (r : reader_t) (rest : List spc_port_t) (a : List spc_value_t),
        wfItems vs = true → dfItems vs ≤ f →
        (r.mem.drop r.pos).take (emitItems vs).length = emitItems vs →
        (r.pos + (emitItems vs).length : Int) ≤ r.endp →
        r.ports.drop r.next_port = portsOfItems vs ++ rest →
        spc_deserialize_array_items f vs.length a.length a r =
          .ok (a ++ rtItems vs,
            { r with pos := r.pos + (emitItems vs).length, next_port := r.next_port + (portsOfItems vs).length }))
    ?_ ?_ ?_ ?_ ?_ ?_ ?_ ?_ ?_ ?_ ?_ ?_ ?_ ?_ ?_ ?_ ?_ ?_ ?_
  -- null
  · intro _ _ _ _ f r rest hwf hdf hmem hend hports
    obtain ⟨f, rfl⟩ : ∃ g, f = g + 1 := ⟨f - 1, by simp [dfValue] at hdf; omega⟩
    have h1 := spc_read_uint32_at r SPC_TYPE_NULL
      (by simpa [emitValue, encU32_length] using hmem)
      (by simp only [emitValue, encU32_length] at hend; exact_mod_cast hend)
    simp [spc_deserialize_value, h1, SPC_TYPE_NULL, rtValue, portsOfValue,
      emitValue, encU32_length]
  -- bool
  · intro _ _ _ b _ _ _ _ f r rest hwf hdf hmem hend hports
    obtain ⟨f, rfl⟩ : ∃ g, f = g + 1 := ⟨f - 1, by simp [dfValue] at hdf; omega⟩
    simp only [emitValue] at hmem hend
    obtain ⟨hm1, hm2⟩ := take_split (r.mem.drop r.pos) (encU32 SPC_TYPE_BOOL)
      (encU32 b) (by simpa [encU32_length] using hmem)
    have h1 := spc_read_uint32_at r SPC_TYPE_BOOL
      (by simpa [encU32_length] using hm1)
      (by simp only [List.length_append, encU32_length] at hend; omega)
    have h2 := spc_read_uint32_at { r with pos := r.pos + 4 } b
      (by simpa [encU32_length, List.drop_drop] using hm2)
      (by simp only [List.length_append, encU32_length] at hend; simp; omega)
    have hb : b % 4294967296 = b := Nat.mod_eq_of_lt (by simpa [wfValue] using hwf)
    simp [spc_deserialize_value, h1, h2, hb, SPC_TYPE_NULL, SPC_TYPE_BOOL,
      rtValue, portsOfValue, emitValue, encU32_length, List.length_append]
    try omega
  -- uint64
  · intro _ _ _ u _ _ _ _ f r rest hwf hdf hmem hend hports
    obtain ⟨f, rfl⟩ : ∃ g, f = g + 1 := ⟨f - 1, by simp [dfValue] at hdf; omega⟩
    simp only [emitValue] at hmem hend
    obtain ⟨hm1, hm2⟩ := take_split (r.mem.drop r.pos) (encU32 SPC_TYPE_UINT64)
      (encU64 u) (by simpa [encU32_length, encU64_length] using hmem)
    have h1 := spc_read_uint32_at r SPC_TYPE_UINT64
      (by simpa [encU32_length] using hm1)
      (by simp only [List.length_append, encU32_length, encU64_length] at hend; omega)
    have h2 := spc_read_uint64_at { r with pos := r.pos + 4 } u
      (by simpa [encU64_length, List.drop_drop] using hm2)
      (by simp only [List.length_append, encU32_length, encU64_length] at hend; simp; omega)
    have hu : u % 18446744073709551616 = u := Nat.mod_eq_of_lt (by simpa [wfValue] using hwf)
    simp [spc_deserialize_value, h1, h2, hu, SPC_TYPE_NULL, SPC_TYPE_BOOL,
      SPC_TYPE_UINT64, rtValue, portsOfValue, emitValue, encU32_length,
      encU64_length, List.length_append]
    try omega
  -- int64
  · intro _ _ _ i _ _ _ _ f r rest hwf hdf hmem hend hports
    obtain ⟨f, rfl⟩ : ∃ g, f = g + 1 := ⟨f - 1, by simp [dfValue] at hdf; omega⟩
    simp only [emitValue] at hmem hend
    obtain ⟨hm1, hm2⟩ := take_split (r.mem.drop r.pos) (encU32 SPC_TYPE_INT64)
      (encU64 (i64ToNat i)) (by simpa [encU32_length, encU64_length] using hmem)
    have h1 := spc_read_uint32_at r SPC_TYPE_INT64
      (by simpa [encU32_length] using hm1)
      (by simp only [List.length_append, encU32_length, encU64_length] at hend; omega)
    have h2 := spc_read_int64_at { r with pos := r.pos + 4 } (i64ToNat i)
      (by simpa [encU64_length, List.drop_drop] using hm2)
      (by simp only [List.length_append, encU32_length, encU64_length] at hend; simp; omega)
    have hwf2 : (-9223372036854775808 ≤ i) ∧ i < 9223372036854775808 := by
      simpa [wfValue] using hwf
    have hi : natToI64 (i64ToNat i % 18446744073709551616) = i := by
      rw [Nat.mod_eq_of_lt (i64ToNat_lt i)]
      exact natToI64_i64ToNat i hwf2.1 hwf2.2
    simp [spc_deserialize_value, h1, h2, hi, SPC_TYPE_NULL, SPC_TYPE_BOOL,
      SPC_TYPE_UINT64, SPC_TYPE_INT64, rtValue, portsOfValue, emitValue,
      encU32_length, encU64_length, List.length_append]
    try omega
  -- double
  · intro _ _ _ d _ _ _ _ f r rest hwf hdf hmem hend hports
    obtain ⟨f, rfl⟩ : ∃ g, f = g + 1 := ⟨f - 1, by simp [dfValue] at hdf; omega⟩
    simp only [emitValue] at hmem hend
    obtain ⟨hm1, hm2⟩ := take_split (r.mem.drop r.pos) (encU32 SPC_TYPE_DOUBLE)
      (encU64 d) (by simpa [encU32_length, encU64_length] using hmem)
    have h1 := spc_read_uint32_at r SPC_TYPE_DOUBLE
      (by simpa [encU32_length] using hm1)
      (by simp only [List.length_append, encU32_length, encU64_length] at hend; omega)
    have h2 := spc_read_double_at { r with pos := r.pos + 4 } d
      (by simpa [encU64_length, List.drop_drop] using hm2)
      (by simp only [List.length_append, encU32_length, encU64_length] at hend; simp; omega)
    have hd : d % 18446744073709551616 = d := Nat.mod_eq_of_lt (by simpa [wfValue] using hwf)
    simp [spc_deserialize_value, h1, h2, hd, SPC_TYPE_NULL, SPC_TYPE_BOOL,
      SPC_TYPE_UINT64, SPC_TYPE_INT64, SPC_TYPE_DOUBLE, rtValue, portsOfValue,
      emitValue, encU32_length, encU64_length, List.length_append]
    try omega
  -- string
  · intro _ _ _ s _ _ _ _ _ _ _ f r rest hwf hdf hmem hend hports
    obtain ⟨f, rfl⟩ : ∃ g, f = g + 1 := ⟨f - 1, by simp [dfValue] at hdf; omega⟩
    simp only [emitValue] at hmem hend
    obtain ⟨hm1, hm2⟩ := take_split (r.mem.drop r.pos) (encU32 SPC_TYPE_STRING)
      (encU32 (s.length + 1) ++ padded (s ++ [0]))
      (by simpa [encU32_length] using hmem)
    obtain ⟨hm3, hm4⟩ := take_split ((r.mem.drop r.pos).drop (encU32 SPC_TYPE_STRING).length)
      (encU32 (s.length + 1)) (padded (s ++ [0]))
      (by simpa [encU32_length] using hm2)
    have hwf2 : strOk s = true ∧ s.length + 1 < 4294967296 := by
      simpa [wfValue] using hwf
    have h1 := spc_read_uint32_at r SPC_TYPE_STRING
      (by simpa [encU32_length] using hm1)
      (by simp only [List.length_append, encU32_length] at hend; omega)
    have h2 := spc_read_uint32_at { r with pos := r.pos + 4 } (s.length + 1)
      (by simpa [encU32_length, List.drop_drop] using hm3)
      (by simp only [List.length_append, encU32_length] at hend; simp; omega)
    have h3 := spc_read_str_at { r with pos := r.pos + 4 + 4 } s
      (strOk_nonzero s hwf2.1)
      (by simpa [List.drop_drop] using hm4)
      (by simp only [List.length_append, encU32_length] at hend; simp; omega)
    simp [spc_deserialize_value, h1, h2, h3, SPC_TYPE_NULL, SPC_TYPE_BOOL,
      SPC_TYPE_UINT64, SPC_TYPE_INT64, SPC_TYPE_DOUBLE, SPC_TYPE_STRING,
      rtValue, portsOfValue, emitValue, encU32_length, List.length_append]
    try omega
  -- data
  · intro _ _ _ bs _ _ _ _ _ _ _ f r rest hwf hdf hmem hend hports
    obtain ⟨f, rfl⟩ : ∃ g, f = g + 1 := ⟨f - 1, by simp [dfValue] at hdf; omega⟩
    simp only [emitValue] at hmem hend
    obtain ⟨hm1, hm2⟩ := take_split (r.mem.drop r.pos) (encU32 SPC_TYPE_DATA)
      (encU32 bs.length ++ padded bs)
      (by simpa [encU32_length] using hmem)
    obtain ⟨hm3, hm4⟩ := take_split ((r.mem.drop r.pos).drop (encU32 SPC_TYPE_DATA).length)
      (encU32 bs.length) (padded bs)
      (by simpa [encU32_length] using hm2)
    have hwf2 : bytesOk bs = true ∧ bs.length < 4294967296 := by
      simpa [wfValue] using hwf
    have h1 := spc_read_uint32_at r SPC_TYPE_DATA
      (by simpa [encU32_length] using hm1)
      (by simp only [List.length_append, encU32_length] at hend; omega)
    have h2 := spc_read_uint32_at { r with pos := r.pos + 4 } bs.length
      (by simpa [encU32_length, List.drop_drop] using hm3)
      (by simp only [List.length_append, encU32_length] at hend; simp; omega)
    have h3 := spc_read_padded_at { r with pos := r.pos + 4 + 4 } bs.length (padded bs)
      (padded_length bs)
      (by simpa [List.drop_drop] using hm4)
      (by simp only [List.length_append, encU32_length] at hend; simp; omega)
    have htk : (padded bs).take bs.length = bs := by
      unfold padded
      exact List.take_left bs _
    have hsz : bs.length % 4294967296 = bs.length := Nat.mod_eq_of_lt hwf2.2
    simp [spc_deserialize_value, h1, h2, h3, hsz, htk, SPC_TYPE_NULL, SPC_TYPE_BOOL,
      SPC_TYPE_UINT64, SPC_TYPE_INT64, SPC_TYPE_DOUBLE, SPC_TYPE_STRING,
      SPC_TYPE_DATA, SPC_TYPE_UUID, SPC_TYPE_FD, SPC_TYPE_ARRAY, SPC_TYPE_DICT,
      SPC_TYPE_SEND_PORT, SPC_TYPE_RECV_PORT, rtValue, portsOfValue, emitValue,
      encU32_length, List.length_append]
    try omega
  -- uuid
  · intro _ _ _ bs _ _ _ _ f r rest hwf hdf hmem hend hports
    obtain ⟨f, rfl⟩ : ∃ g, f = g + 1 := ⟨f - 1, by simp [dfValue] at hdf; omega⟩
    simp only [emitValue] at hmem hend
    obtain ⟨hm1, hm2⟩ := take_split (r.mem.drop r.pos) (encU32 SPC_TYPE_UUID)
      bs (by simpa [encU32_length] using hmem)
    have hwf2 : bs.length = 16 ∧ bytesOk bs = true := by
      simpa [wfValue] using hwf
    have h1 := spc_read_uint32_at r SPC_TYPE_UUID
      (by simpa [encU32_length] using hm1)
      (by simp only [List.length_append, encU32_length] at hend; omega)
    have h2 := spc_read_at { r with pos := r.pos + 4 } bs
      (by simpa [encU32_length, List.drop_drop] using hm2)
      (by simp only [List.length_append, encU32_length] at hend; simp; omega)
    rw [hwf2.1] at h2
    simp [spc_deserialize_value, h1, h2, SPC_TYPE_NULL, SPC_TYPE_BOOL,
      SPC_TYPE_UINT64, SPC_TYPE_INT64, SPC_TYPE_DOUBLE, SPC_TYPE_STRING,
      SPC_TYPE_DATA, SPC_TYPE_UUID, SPC_TYPE_FD, SPC_TYPE_ARRAY, SPC_TYPE_DICT,
      SPC_TYPE_SEND_PORT, SPC_TYPE_RECV_PORT, rtValue, portsOfValue, emitValue,
      encU32_length, List.length_append, hwf2.1]
    try omega
  -- array
  · intro _ _ _ vs _ _ _ _ ih f r rest hwf hdf hmem hend hports
    obtain ⟨f, rfl⟩ : ∃ g, f = g + 1 := ⟨f - 1, by simp [dfValue] at hdf; omega⟩
    simp only [emitValue] at hmem hend
    obtain ⟨hm1, hm2⟩ := take_split (r.mem.drop r.pos) (encU32 SPC_TYPE_ARRAY)
      (emitArrayBody vs) (by simpa [encU32_length] using hmem)
    have hwf2 : vs.length < 4294967296 ∧ wfItems vs = true := by
      simpa [wfValue] using hwf
    have h1 := spc_read_uint32_at r SPC_TYPE_ARRAY
      (by simpa [encU32_length] using hm1)
      (by simp only [List.length_append, encU32_length] at hend; omega)
    have hb := ih f { r with pos := r.pos + 4 } rest hwf2.2 hwf2.1
      (by simp [dfValue] at hdf; omega)
      (by simpa [encU32_length, List.drop_drop] using hm2)
      (by simp only [List.length_append, encU32_length] at hend; simp; omega)
      (by simpa [portsOfValue] using hports)
    simp [spc_deserialize_value, h1, hb, SPC_TYPE_NULL, SPC_TYPE_BOOL,
      SPC_TYPE_UINT64, SPC_TYPE_INT64, SPC_TYPE_DOUBLE, SPC_TYPE_STRING,
      SPC_TYPE_ARRAY, rtValue, portsOfValue, emitValue, encU32_length,
      List.length_append]
    try omega
  -- dict
  · intro _ _ _ its _ _ _ _ ih f r rest hwf hdf hmem hend hports
    obtain ⟨f, rfl⟩ : ∃ g, f = g + 1 := ⟨f - 1, by simp [dfValue] at hdf; omega⟩
    simp only [emitValue] at hmem hend
    obtain ⟨hm1, hm2⟩ := take_split (r.mem.drop r.pos) (encU32 SPC_TYPE_DICT)
      (emitDictBody its) (by simpa [encU32_length] using hmem)
    have hwf2 : its.length < 4294967296 ∧ wfEntries its = true := by
      simpa [wfValue] using hwf
    have h1 := spc_read_uint32_at r SPC_TYPE_DICT
      (by simpa [encU32_length] using hm1)
      (by simp only [List.length_append, encU32_length] at hend; omega)
    have hb := ih f { r with pos := r.pos + 4 } rest hwf2.2 hwf2.1
      (by simp [dfValue] at hdf; omega)
      (by simpa [encU32_length, List.drop_drop] using hm2)
      (by simp only [List.length_append, encU32_length] at hend; simp; omega)
      (by simpa [portsOfValue] using hports)
    simp [spc_deserialize_value, h1, hb, SPC_TYPE_NULL, SPC_TYPE_BOOL,
      SPC_TYPE_UINT64, SPC_TYPE_INT64, SPC_TYPE_DOUBLE, SPC_TYPE_STRING,
      SPC_TYPE_ARRAY, SPC_TYPE_DICT, rtValue, portsOfValue, emitValue,
      encU32_length, List.length_append]
    try omega
  -- fd
  · intro _ _ _ p _ f r rest hwf hdf hmem hend hports
    simp [wfValue] at hwf
  -- send_port
  · intro _ _ _ p _ f r rest hwf hdf hmem hend hports
    obtain ⟨f, rfl⟩ : ∃ g, f = g + 1 := ⟨f - 1, by simp [dfValue] at hdf; omega⟩
    simp only [emitValue] at hmem hend
    have h1 := spc_read_uint32_at r SPC_TYPE_SEND_PORT
      (by simpa [encU32_length] using hmem)
      (by simp only [encU32_length] at hend; omega)
    have hnp := spc_reader_next_port_at { r with pos := r.pos + 4 } p rest
      (by simpa [portsOfValue] using hports)
    simp [spc_deserialize_value, h1, hnp, SPC_TYPE_NULL, SPC_TYPE_BOOL,
      SPC_TYPE_UINT64, SPC_TYPE_INT64, SPC_TYPE_DOUBLE, SPC_TYPE_STRING,
      SPC_TYPE_ARRAY, SPC_TYPE_DICT, SPC_TYPE_SEND_PORT, rtValue, portsOfValue,
      emitValue, encU32_length]
  -- recv_port
  · intro _ _ _ p _ f r rest hwf hdf hmem hend hports
    obtain ⟨f, rfl⟩ : ∃ g, f = g + 1 := ⟨f - 1, by simp [dfValue] at hdf; omega⟩
    simp only [emitValue] at hmem hend
    have h1 := spc_read_uint32_at r SPC_TYPE_RECV_PORT
      (by simpa [encU32_length] using hmem)
      (by simp only [encU32_length] at hend; omega)
    have hnp := spc_reader_next_port_at { r with pos := r.pos + 4 } p rest
      (by simpa [portsOfValue] using hports)
    simp [spc_deserialize_value, h1, hnp, SPC_TYPE_NULL, SPC_TYPE_BOOL,
      SPC_TYPE_UINT64, SPC_TYPE_INT64, SPC_TYPE_DOUBLE, SPC_TYPE_STRING,
      SPC_TYPE_ARRAY, SPC_TYPE_DICT, SPC_TYPE_SEND_PORT, SPC_TYPE_RECV_PORT,
      rtValue, portsOfValue, emitValue, encU32_length]
  -- dict body
  · intro _ its _ _ _ _ _ _ _ _ _ ih f r rest hwf hlen32 hdf hmem hend hports
    obtain ⟨f, rfl⟩ : ∃ g, f = g + 1 := ⟨f - 1, by omega⟩
    simp only [emitDictBody] at hmem hend
    obtain ⟨hm1, hm2⟩ := take_split (r.mem.drop r.pos)
      (encU32 (4 + (emitEntries its).length)) (encU32 its.length ++ emitEntries its)
      (by simpa [encU32_length] using hmem)
    obtain ⟨hm3, hm4⟩ := take_split
      ((r.mem.drop r.pos).drop (encU32 (4 + (emitEntries its).length)).length)
      (encU32 its.length) (emitEntries its) (by simpa [encU32_length] using hm2)
    have h1 := spc_read_uint32_at r (4 + (emitEntries its).length)
      (by simpa [encU32_length] using hm1)
      (by simp only [List.length_append, encU32_length] at hend; omega)
    have h2 := spc_read_uint32_at { r with pos := r.pos + 4 } its.length
      (by simpa [encU32_length, List.drop_drop] using hm3)
      (by simp only [List.length_append, encU32_length] at hend; simp; omega)
    have hn : its.length % 4294967296 = its.length := Nat.mod_eq_of_lt hlen32
    have hi := ih f { r with pos := r.pos + 4 + 4 } rest [] hwf (by omega)
      (by simpa [List.drop_drop] using hm4)
      (by simp only [List.length_append, encU32_length] at hend; simp; omega)
      (by simpa using hports)
    simp [spc_deserialize_dict, h1, h2, hn, hi, emitDictBody, List.length_append,
      encU32_length]
    try omega
  -- dict items nil
  · intro _ f r rest acc hwf hdf hmem hend hports
    obtain ⟨f, rfl⟩ : ∃ g, f = g + 1 := ⟨f - 1, by simp [dfEntries] at hdf; omega⟩
    simp [spc_deserialize_dict_items, rtEntries, emitEntries, portsOfEntries]
  -- dict items cons
  · intro _ k v rest1 _ _ _ _ _ _ _ _ _ ih1 ih3 f r rest acc hwf hdf hmem hend hports
    obtain ⟨f, rfl⟩ : ∃ g, f = g + 1 := ⟨f - 1, by simp [dfEntries] at hdf; omega⟩
    have hdf2 : dfValue v ≤ f ∧ dfEntries rest1 ≤ f := by
      simp [dfEntries] at hdf
      omega
    have hwf2 : strOk k = true ∧ k.length + 1 < 4294967296 ∧ wfValue v = true ∧
        wfEntries rest1 = true := by simpa [wfEntries, and_assoc] using hwf
    simp only [emitEntries] at hmem hend
    obtain ⟨hm1, hm2⟩ := take_split (r.mem.drop r.pos) (padded (k ++ [0]))
      (emitValue v ++ emitEntries rest1) (by simpa using hmem)
    obtain ⟨hm3, hm4⟩ := take_split ((r.mem.drop r.pos).drop (padded (k ++ [0])).length)
      (emitValue v) (emitEntries rest1) (by simpa using hm2)
    have hkey := spc_read_str_at r k (strOk_nonzero k hwf2.1) hm1
      (by simp only [List.length_append] at hend; omega)
    have hv := ih1 f { r with pos := r.pos + (padded (k ++ [0])).length }
      (portsOfEntries rest1 ++ rest) hwf2.2.2.1 hdf2.1
      (by simpa [List.drop_drop] using hm3)
      (by simp only [List.length_append] at hend; simp; omega)
      (by simpa [portsOfEntries, List.append_assoc] using hports)
    have hrest := ih3 f { r with pos := r.pos + (padded (k ++ [0])).length + (emitValue v).length, next_port := r.next_port + (portsOfValue v).length }
      rest ((k, rtValue v) :: acc) hwf2.2.2.2 hdf2.2
      (by simpa [List.drop_drop] using hm4)
      (by simp only [List.length_append] at hend; simp; omega)
      (by simp only []
          exact drop_cancel _ _ _ _
            (by simpa [portsOfEntries, List.append_assoc] using hports))
    simp [spc_deserialize_dict_items, hkey, hv, hrest, rtEntries, portsOfEntries,
      emitEntries, List.length_append, List.append_assoc, List.reverse_cons]
    try omega
  -- array body
  · intro _ vs _ _ _ _ _ _ _ _ _ ih f r rest hwf hlen32 hdf hmem hend hports
    obtain ⟨f, rfl⟩ : ∃ g, f = g + 1 := ⟨f - 1, by omega⟩
    simp only [emitArrayBody] at hmem hend
    obtain ⟨hm1, hm2⟩ := take_split (r.mem.drop r.pos)
      (encU32 (4 + (emitItems vs).length)) (encU32 vs.length ++ emitItems vs)
      (by simpa [encU32_length] using hmem)
    obtain ⟨hm3, hm4⟩ := take_split
      ((r.mem.drop r.pos).drop (encU32 (4 + (emitItems vs).length)).length)
      (encU32 vs.length) (emitItems vs) (by simpa [encU32_length] using hm2)
    have h1 := spc_read_uint32_at r (4 + (emitItems vs).length)
      (by simpa [encU32_length] using hm1)
      (by simp only [List.length_append, encU32_length] at hend; omega)
    have h2 := spc_read_uint32_at { r with pos := r.pos + 4 } vs.length
      (by simpa [encU32_length, List.drop_drop] using hm3)
      (by simp only [List.length_append, encU32_length] at hend; simp; omega)
    have hn : vs.length % 4294967296 = vs.length := Nat.mod_eq_of_lt hlen32
    have hi := ih f { r with pos := r.pos + 4 + 4 } rest [] hwf (by omega)
      (by simpa [List.drop_drop] using hm4)
      (by simp only [List.length_append, encU32_length] at hend; simp; omega)
      (by simpa using hports)
    simp only [List.length_nil] at hi
    simp [spc_deserialize_array, h1, h2, hn, hi, emitArrayBody, List.length_append,
      encU32_length]
    try omega
  -- array items nil
  · intro _ f r rest acc hwf hdf hmem hend hports
    obtain ⟨f, rfl⟩ : ∃ g, f = g + 1 := ⟨f - 1, by simp [dfItems] at hdf; omega⟩
    simp [spc_deserialize_array_items, rtItems, emitItems, portsOfItems]
  -- array items cons
  · intro _ v rest1 _ _ _ _ _ _ ih1 ih5 f r rest a hwf hdf hmem hend hports
    obtain ⟨f, rfl⟩ : ∃ g, f = g + 1 := ⟨f - 1, by simp [dfItems] at hdf; omega⟩
    have hdf2 : dfValue v ≤ f ∧ dfItems rest1 ≤ f := by
      simp [dfItems] at hdf
      omega
    have hwf2 : wfValue v = true ∧ wfItems rest1 = true := by
      simpa [wfItems] using hwf
    simp only [emitItems] at hmem hend
    obtain ⟨hm1, hm2⟩ := take_split (r.mem.drop r.pos) (emitValue v)
      (emitItems rest1) (by simpa using hmem)
    have hv := ih1 f r (portsOfItems rest1 ++ rest) hwf2.1 hdf2.1 hm1
      (by simp only [List.length_append] at hend; omega)
      (by simpa [portsOfItems, List.append_assoc] using hports)
    have hrest := ih5 f { r with pos := r.pos + (emitValue v).length, next_port := r.next_port + (portsOfValue v).length }
      rest (a ++ [rtValue v]) hwf2.2 hdf2.2
      (by simpa [List.drop_drop] using hm2)
      (by simp only [List.length_append] at hend; simp; omega)
      (by simp only []
          exact drop_cancel _ _ _ _
            (by simpa [portsOfItems, List.append_assoc] using hports))
    simp only [List.length_append, List.length_cons, List.length_nil] at hrest
    simp [spc_deserialize_array_items, hv, hrest, spc_array_set_value_append,
      rtItems, portsOfItems, emitItems, List.length_append, List.append_assoc]
    try omega

/-- Decoding the emitted image of a well-formed value succeeds and yields
its round-trip image, advancing exactly over the emitted bytes and
consuming exactly the value's ports from the reader's port list. -/
theorem spc_deserialize_value_emit (v : spc_value_t) (f : Nat) (r : reader_t)
    (rest : List spc_port_t) (hwf : wfValue v = true) (hdf : dfValue v ≤ f)
    (hmem : (r.mem.drop r.pos).take (emitValue v).length = emitValue v)
    (hend : (r.pos + (emitValue v).length : Int) ≤ r.endp)
    (hports : r.ports.drop r.next_port = portsOfValue v ++ rest) :
    spc_deserialize_value f r =
      .ok (rtValue v, { r with pos := r.pos + (emitValue v).length, next_port := r.next_port + (portsOfValue v).length }) :=
  deserialize_emit_aux.1 ⟨[], []⟩ v f r rest hwf hdf hmem hend hports


theorem emitValue_length_ge (v : spc_value_t) : 4 ≤ (emitValue v).length := by
  cases v <;>
    simp [emitValue, emitArrayBody, emitDictBody, encU32_length, encU64_length,
      List.length_append]

theorem emit_fuel_bound :
    (∀ (_ : writer_t) (v : spc_value_t),
        dfValue v ≤ (emitValue v).length ∧ 4 ≤ (emitValue v).length) ∧
    (∀ (_ : writer_t) (its : List (List Nat × spc_value_t)),
        1 + dfEntries its ≤ (emitDictBody its).length) ∧
    (∀ (_ : writer_t) (its : List (List Nat × spc_value_t)),
        dfEntries its ≤ (emitEntries its).length + 1) ∧
    (∀ (_ : writer_t) (vs : List spc_value_t),
        1 + dfItems vs ≤ (emitArrayBody vs).length) ∧
    (∀ (_ : writer_t) (vs : List spc_value_t),
        dfItems vs ≤ (emitItems vs).length + 1) := by
  refine spc_serialize_value.mutual_induct
    (fun _ v => dfValue v ≤ (emitValue v).length ∧ 4 ≤ (emitValue v).length)
    (fun _ its => 1 + dfEntries its ≤ (emitDictBody its).length)
    (fun _ its => dfEntries its ≤ (emitEntries its).length + 1)
    (fun _ vs => 1 + dfItems vs ≤ (emitArrayBody vs).length)
    (fun _ vs => dfItems vs ≤ (emitItems vs).length + 1)
    ?_ ?_ ?_ ?_ ?_ ?_ ?_ ?_ ?_ ?_ ?_ ?_ ?_ ?_ ?_ ?_ ?_ ?_ ?_ <;> intros <;>
    simp_all [dfValue, dfItems, dfEntries, emitValue, emitArrayBody, emitDictBody,
      emitItems, emitEntries, encU32_length, encU64_length, List.length_append] <;>
    omega

theorem truncPort_eq (p : spc_port_t) (h1 : p.name < 4294967296)
    (h2 : p.type < 256) : truncPort p = p := by
  cases p with
  | mk n t =>
    simp only [truncPort]
    congr 1 <;> simp_all

theorem wf_ports_trunc :
    (∀ (_ : writer_t) (v : spc_value_t), wfValue v = true →
        (portsOfValue v).map truncPort = portsOfValue v) ∧
    (∀ (_ : writer_t) (its : List (List Nat × spc_value_t)), wfEntries its = true →
        (portsOfEntries its).map truncPort = portsOfEntries its) ∧
    (∀ (_ : writer_t) (its : List (List Nat × spc_value_t)), wfEntries its = true →
        (portsOfEntries its).map truncPort = portsOfEntries its) ∧
    (∀ (_ : writer_t) (vs : List spc_value_t), wfItems vs = true →
        (portsOfItems vs).map truncPort = portsOfItems vs) ∧
    (∀ (_ : writer_t) (vs : List spc_value_t), wfItems vs = true →
        (portsOfItems vs).map truncPort = portsOfItems vs) := by
  refine spc_serialize_value.mutual_induct
    (fun _ v => wfValue v = true → (portsOfValue v).map truncPort = portsOfValue v)
    (fun _ its => wfEntries its = true →
      (portsOfEntries its).map truncPort = portsOfEntries its)
    (fun _ its => wfEntries its = true →
      (portsOfEntries its).map truncPort = portsOfEntries its)
    (fun _ vs => wfItems vs = true → (portsOfItems vs).map truncPort = portsOfItems vs)
    (fun _ vs => wfItems vs = true → (portsOfItems vs).map truncPort = portsOfItems vs)
    ?_ ?_ ?_ ?_ ?_ ?_ ?_ ?_ ?_ ?_ ?_ ?_ ?_ ?_ ?_ ?_ ?_ ?_ ?_ <;> intros <;>
    simp_all [wfValue, wfItems, wfEntries, portsOfValue, portsOfItems,
      portsOfEntries] <;>
    try (intro h1 h2; exact truncPort_eq _ h1 h2)

theorem encPortDescriptor_length (p : spc_port_t) :
    (encPortDescriptor p).length = 12 := by
  simp [encPortDescriptor, encU32_length, MACH_MSG_PORT_DESCRIPTOR]

theorem encPortDescriptor_flatten_length (ps : List spc_port_t) :
    ((ps.map encPortDescriptor).flatten).length = 12 * ps.length := by
  induction ps with
  | nil => simp
  | cons q t iq =>
    simp only [List.map_cons, List.flatten_cons, List.length_append, iq,
      List.length_cons, encPortDescriptor_length]
    omega

theorem spc_parse_descriptors_emit (ps : List spc_port_t) (r : reader_t)
    (hmem : (r.mem.drop r.pos).take (12 * ps.length) = (ps.map encPortDescriptor).flatten)
    (hend : (r.pos + 12 * ps.length : Int) ≤ r.endp) :
    spc_parse_descriptors ps.length r =
      .ok { r with pos := r.pos + 12 * ps.length, ports := r.ports ++ ps.map truncPort } := by
  induction ps generalizing r with
  | nil =>
    simp [spc_parse_descriptors]
  | cons p rest ih =>
    have hm0 : (r.mem.drop r.pos).take ((encPortDescriptor p).length +
        ((rest.map encPortDescriptor).flatten).length) =
        encPortDescriptor p ++ (rest.map encPortDescriptor).flatten := by
      rw [encPortDescriptor_length, encPortDescriptor_flatten_length]
      have h12 : 12 + 12 * rest.length = 12 * (p :: rest).length := by
        simp [List.length_cons]
        omega
      rw [h12, hmem]
      simp
    obtain ⟨hm1, hm2⟩ := take_split (r.mem.drop r.pos) (encPortDescriptor p)
      ((rest.map encPortDescriptor).flatten) hm0
    have hpeek : (r.mem.drop r.pos).getD 11 0 = MACH_MSG_PORT_DESCRIPTOR := by
      have h11 : (r.mem.drop r.pos).getD 11 0 =
          ((r.mem.drop r.pos).take (encPortDescriptor p).length).getD 11 0 := by
        rw [encPortDescriptor_length]
        simp [List.getD, List.getElem?_take]
      rw [h11, hm1]
      simp [encPortDescriptor, encU32, List.getD, MACH_MSG_PORT_DESCRIPTOR]
    have hrd := spc_read_at r (encPortDescriptor p)
      (by rw [encPortDescriptor_length] at hm1 ⊢; exact hm1)
      (by
        rw [encPortDescriptor_length]
        simp only [List.length_cons] at hend
        push_cast at hend ⊢
        omega)
    rw [encPortDescriptor_length] at hrd
    have htail : (r.mem.drop (r.pos + 12)).take (12 * rest.length) =
        (rest.map encPortDescriptor).flatten := by
      have h2 := hm2
      rw [encPortDescriptor_length, List.drop_drop,
        encPortDescriptor_flatten_length] at h2
      exact h2
    have hih := ih { r with pos := r.pos + 12, ports := r.ports ++ [truncPort p] }
      (by simpa using htail)
      (by
        simp only [List.length_cons] at hend
        push_cast at hend ⊢
        omega)
    have hport : (⟨decU32 ((encPortDescriptor p).take 4),
        (encPortDescriptor p).getD 10 0⟩ : spc_port_t) = truncPort p := by
      have ht4 : (encPortDescriptor p).take 4 = encU32 p.name := by
        have hshape : encPortDescriptor p = encU32 p.name ++
            (encU32 0 ++ [0, 0, p.type % 256, MACH_MSG_PORT_DESCRIPTOR]) := by
          simp [encPortDescriptor]
        rw [hshape]
        have h4 : (4 : Nat) = (encU32 p.name).length := (encU32_length _).symm
        rw [h4, List.take_left]
      rw [ht4, decU32_encU32]
      simp [encPortDescriptor, encU32, List.getD, truncPort]
    simp only [List.length_cons]
    unfold spc_parse_descriptors
    rw [hpeek]
    simp only [MACH_MSG_PORT_DESCRIPTOR, if_pos rfl, portDescSize]
    rw [hrd]
    simp only [hport]
    rw [hih]
    simp [List.append_assoc, List.length_cons]
    omega

/-! ## The serialized kernel message -/

theorem spc_serialize_spec (msg : spc_message_t) :
    spc_serialize msg =
      { header :=
          { msgh_bits :=
              (if (portsOfEntries msg.content).length ≠ 0 then
                (MACH_MSGH_BITS_COMPLEX |||
                  MACH_MSGH_BITS msg.remote_port.type msg.local_port.type) % 4294967296
              else
                MACH_MSGH_BITS msg.remote_port.type msg.local_port.type % 4294967296)
            msgh_size :=
              (if (portsOfEntries msg.content).length ≠ 0 then
                (machHeaderSize + machBodySize +
                  (portsOfEntries msg.content).length * portDescSize +
                  (8 + (emitValue (.dict msg.content)).length)) % 4294967296
              else
                (machHeaderSize + (8 + (emitValue (.dict msg.content)).length)) %
                  4294967296)
            msgh_remote_port := msg.remote_port.name % 4294967296
            msgh_local_port := msg.local_port.name % 4294967296
            msgh_id := msg.id % 4294967296 }
        buf := descRegion (portsOfEntries msg.content) ++ magicBytes ++
          emitValue (.dict msg.content) } := by
  unfold spc_serialize
  simp only [spc_write, spc_write_uint32, spc_write_dict_spec, List.nil_append,
    List.append_nil]
  split
  · rename_i hne
    simp [descRegion, hne, emitValue, emitDictBody, magicBytes, machHeaderSize,
      machBodySize, portDescSize, encU32_length, List.length_append,
      List.append_assoc]
    try omega
  · rename_i hz
    have hp : portsOfEntries msg.content = [] := by
      simpa using hz
    simp [descRegion, hp, emitValue, emitDictBody, magicBytes, machHeaderSize,
      encU32_length, List.length_append, List.append_assoc]
    try omega
/-- Decoding a simple (portless) wire message holding the magic and the
emission of a well-formed dictionary. -/
theorem spc_deserialize_simple (hdr : mach_msg_header_t)
    (its : List (List Nat × spc_value_t))
    (hwf : wfValue (.dict its) = true)
    (hid : hdr.msgh_id ≠ 71)
    (hbits : hdr.msgh_bits &&& MACH_MSGH_BITS_COMPLEX = 0)
    (hsize : hdr.msgh_size = machHeaderSize + 8 + (emitValue (.dict its)).length)
    (hport0 : portsOfEntries its = []) :
    spc_deserialize ⟨hdr, magicBytes ++ emitValue (.dict its)⟩ =
      .ok (some ⟨⟨hdr.msgh_remote_port, MACH_MSGH_BITS_REMOTE hdr.msgh_bits⟩,
        ⟨hdr.msgh_remote_port, MACH_MSGH_BITS_LOCAL hdr.msgh_bits⟩,
        hdr.msgh_id, (rtEntries its).reverse⟩) := by
  have hdfL := (emit_fuel_bound.1 ⟨[], []⟩ (.dict its)).1
  have h8 : magicBytes.length = 8 := by simp [magicBytes]
  have hmg := spc_read_at
    ⟨magicBytes ++ emitValue (.dict its), 0, (hdr.msgh_size : Int) - machHeaderSize,
      0, []⟩ magicBytes
    (by rw [List.drop_zero]; exact List.take_left _ _)
    (by
      rw [hsize, h8]
      simp [machHeaderSize]
      omega)
  rw [h8] at hmg
  have hval := spc_deserialize_value_emit (.dict its) (hdr.msgh_size + 1)
    ⟨magicBytes ++ emitValue (.dict its), 8, (hdr.msgh_size : Int) - machHeaderSize,
      0, []⟩ [] hwf
    (by rw [hsize]; omega)
    (by
      simp only []
      rw [show (8 : Nat) = magicBytes.length from h8.symm, List.drop_left]
      exact List.take_length _)
    (by
      rw [hsize]
      simp [machHeaderSize]
      omega)
    (by simp [portsOfValue, hport0])
  simp only [Nat.zero_add] at hmg hval
  simp [spc_deserialize, MSGID_CONNECTION_INTERRUPTED, hid, hbits, hmg, hval,
    rtValue, portsOfValue, hport0]

/-- Decoding a complex wire message: body count, port descriptors, magic,
then the emission of a well-formed dictionary whose pre-order ports are
the descriptor ports. -/
theorem spc_deserialize_complex (hdr : mach_msg_header_t) (ps : List spc_port_t)
    (its : List (List Nat × spc_value_t))
    (hwf : wfValue (.dict its) = true)
    (hid : hdr.msgh_id ≠ 71)
    (hbits : hdr.msgh_bits &&& MACH_MSGH_BITS_COMPLEX ≠ 0)
    (hsize : hdr.msgh_size = machHeaderSize + machBodySize + 12 * ps.length +
      (8 + (emitValue (.dict its)).length))
    (hn32 : ps.length < 4294967296)
    (hmap : ps.map truncPort = portsOfEntries its) :
    spc_deserialize ⟨hdr, encU32 ps.length ++
        ((ps.map encPortDescriptor).flatten ++
          (magicBytes ++ emitValue (.dict its)))⟩ =
      .ok (some ⟨⟨hdr.msgh_remote_port, MACH_MSGH_BITS_REMOTE hdr.msgh_bits⟩,
        ⟨hdr.msgh_remote_port, MACH_MSGH_BITS_LOCAL hdr.msgh_bits⟩,
        hdr.msgh_id, (rtEntries its).reverse⟩) := by
  have hdfL := (emit_fuel_bound.1 ⟨[], []⟩ (.dict its)).1
  have h8 : magicBytes.length = 8 := by simp [magicBytes]
  have hfl : ((ps.map encPortDescriptor).flatten).length = 12 * ps.length :=
    encPortDescriptor_flatten_length ps
  have hbody := spc_read_at
    ⟨encU32 ps.length ++ ((ps.map encPortDescriptor).flatten ++
      (magicBytes ++ emitValue (.dict its))), 0,
      (hdr.msgh_size : Int) - machHeaderSize, 0, []⟩ (encU32 ps.length)
    (by rw [List.drop_zero]; exact List.take_left _ _)
    (by
      rw [hsize, encU32_length]
      simp [machHeaderSize, machBodySize]
      omega)
  rw [encU32_length] at hbody
  have hdesc := spc_parse_descriptors_emit ps
    ⟨encU32 ps.length ++ ((ps.map encPortDescriptor).flatten ++
      (magicBytes ++ emitValue (.dict its))), 4,
      (hdr.msgh_size : Int) - machHeaderSize, 0, []⟩
    (by
      simp only []
      rw [show (4 : Nat) = (encU32 ps.length).length from (encU32_length _).symm,
        List.drop_left, ← hfl]
      exact List.take_left _ _)
    (by
      rw [hsize]
      simp [machHeaderSize, machBodySize]
      omega)
  have hmg := spc_read_at
    ⟨encU32 ps.length ++ ((ps.map encPortDescriptor).flatten ++
      (magicBytes ++ emitValue (.dict its))), 4 + 12 * ps.length,
      (hdr.msgh_size : Int) - machHeaderSize, 0, ps.map truncPort⟩ magicBytes
    (by
      simp only []
      rw [show (4 + 12 * ps.length : Nat) =
        (encU32 ps.length).length + ((ps.map encPortDescriptor).flatten).length
        from by rw [encU32_length, hfl], ← List.drop_drop, List.drop_left,
        List.drop_left]
      exact List.take_left _ _)
    (by
      rw [hsize, h8]
      simp [machHeaderSize, machBodySize]
      omega)
  rw [h8] at hmg
  have hval := spc_deserialize_value_emit (.dict its) (hdr.msgh_size + 1)
    ⟨encU32 ps.length ++ ((ps.map encPortDescriptor).flatten ++
      (magicBytes ++ emitValue (.dict its))), 4 + 12 * ps.length + 8,
      (hdr.msgh_size : Int) - machHeaderSize, 0, ps.map truncPort⟩ [] hwf
    (by rw [hsize]; omega)
    (by
      simp only []
      rw [show (4 + 12 * ps.length + 8 : Nat) =
        ((encU32 ps.length).length + ((ps.map encPortDescriptor).flatten).length) +
          magicBytes.length
        from by rw [encU32_length, hfl, h8], ← List.drop_drop, ← List.drop_drop,
        List.drop_left, List.drop_left, List.drop_left]
      exact List.take_length _)
    (by
      rw [hsize]
      simp [machHeaderSize, machBodySize]
      omega)
    (by simp [portsOfValue, hmap])
  have hn : ps.length % 4294967296 = ps.length := Nat.mod_eq_of_lt hn32
  simp only [Nat.zero_add, List.nil_append] at hbody hdesc hmg hval
  rw [hmap] at hmg hval
  simp [spc_deserialize, MSGID_CONNECTION_INTERRUPTED, hid, hbits, hbody, hdesc,
    hmg, hval, machBodySize, decU32_encU32, hn, rtValue, portsOfValue, hmap]

/-- Round trip: decoding a serialized well-formed message succeeds; the
content comes back with every dictionary level reversed, the id and port
names truncated to their 32-bit fields, and the local port name aliased
to the remote one by the decoder. -/
theorem roundtrip_main (msg : spc_message_t)
    (hwf : wfValue (.dict msg.content) = true)
    (hid : msg.id % 4294967296 ≠ 71)
    (hrt : msg.remote_port.type < 256) (hlt : msg.local_port.type < 256)
    (hsz : machHeaderSize + machBodySize +
      (portsOfEntries msg.content).length * portDescSize +
      (8 + (emitValue (.dict msg.content)).length) < 4294967296) :
    spc_deserialize (spc_serialize msg) =
      .ok (some ⟨⟨msg.remote_port.name % 4294967296,
          MACH_MSGH_BITS_REMOTE (spc_serialize msg).header.msgh_bits⟩,
        ⟨msg.remote_port.name % 4294967296,
          MACH_MSGH_BITS_LOCAL (spc_serialize msg).header.msgh_bits⟩,
        msg.id % 4294967296, (rtEntries msg.content).reverse⟩) := by
  have hwfE : wfEntries msg.content = true := by
    simp [wfValue] at hwf
    exact hwf.2
  have hblt := MACH_MSGH_BITS_lt msg.remote_port.type msg.local_port.type hrt hlt
  rw [spc_serialize_spec]
  by_cases hP : (portsOfEntries msg.content).length = 0
  · have hPnil : portsOfEntries msg.content = [] := List.length_eq_zero.mp hP
    rw [hPnil]
    norm_num [descRegion]
    have hd := spc_deserialize_simple
      { msgh_bits := MACH_MSGH_BITS msg.remote_port.type msg.local_port.type %
          4294967296
        msgh_size := (machHeaderSize +
          (8 + (emitValue (.dict msg.content)).length)) % 4294967296
        msgh_remote_port := msg.remote_port.name % 4294967296
        msgh_local_port := msg.local_port.name % 4294967296
        msgh_id := msg.id % 4294967296 }
      msg.content hwf hid
      (by
        simp only []
        have hm : MACH_MSGH_BITS msg.remote_port.type msg.local_port.type %
            4294967296 = MACH_MSGH_BITS msg.remote_port.type msg.local_port.type := by
          apply Nat.mod_eq_of_lt
          calc MACH_MSGH_BITS msg.remote_port.type msg.local_port.type
              < 2 ^ 31 := hblt
            _ < 4294967296 := by norm_num
        rw [hm]
        exact land_eq_zero_of_lt_two_pow_31 _ hblt)
      (by
        simp only []
        rw [Nat.mod_eq_of_lt (by simp [machHeaderSize, machBodySize] at hsz ⊢; omega)]
        simp [machHeaderSize]
        omega)
      hPnil
    simpa using hd
  · have hne : portsOfEntries msg.content ≠ [] := by
      intro hc
      rw [hc] at hP
      simp at hP
    rw [if_pos (by simpa using hP), if_pos (by simpa using hP)]
    have hn32 : (portsOfEntries msg.content).length < 4294967296 := by
      simp [machHeaderSize, machBodySize, portDescSize] at hsz
      omega
    have hd := spc_deserialize_complex
      { msgh_bits := (MACH_MSGH_BITS_COMPLEX |||
          MACH_MSGH_BITS msg.remote_port.type msg.local_port.type) % 4294967296
        msgh_size := (machHeaderSize + machBodySize +
          (portsOfEntries msg.content).length * portDescSize +
          (8 + (emitValue (.dict msg.content)).length)) % 4294967296
        msgh_remote_port := msg.remote_port.name % 4294967296
        msgh_local_port := msg.local_port.name % 4294967296
        msgh_id := msg.id % 4294967296 }
      (portsOfEntries msg.content) msg.content hwf hid
      (by
        simp only []
        exact complex_bit_set _ (Nat.mod_lt _ (by norm_num [MACH_MSGH_BITS])))
      (by
        simp only []
        rw [Nat.mod_eq_of_lt hsz]
        simp [portDescSize]
        omega)
      hn32
      (wf_ports_trunc.2.1 ⟨[], []⟩ msg.content hwfE)
    rw [descRegion, if_neg (by simpa using hP)]
    simp only [List.append_assoc]
    simpa using hd

theorem wirePortsEntriesRev_append (a b : List (List Nat × spc_value_t)) :
    wirePortsEntriesRev (a ++ b) = wirePortsEntriesRev b ++ wirePortsEntriesRev a := by
  induction a with
  | nil => simp [wirePortsEntriesRev]
  | cons x t ih =>
    obtain ⟨k, v⟩ := x
    simp [wirePortsEntriesRev, ih, List.append_assoc]

theorem wirePorts_rt :
    (∀ (_ : writer_t) (v : spc_value_t),
        wirePortsValue (rtValue v) = portsOfValue v) ∧
    (∀ (_ : writer_t) (its : List (List Nat × spc_value_t)),
        wirePortsEntriesRev ((rtEntries its).reverse) = portsOfEntries its) ∧
    (∀ (_ : writer_t) (its : List (List Nat × spc_value_t)),
        wirePortsEntriesRev ((rtEntries its).reverse) = portsOfEntries its) ∧
    (∀ (_ : writer_t) (vs : List spc_value_t),
        wirePortsItems (rtItems vs) = portsOfItems vs) ∧
    (∀ (_ : writer_t) (vs : List spc_value_t),
        wirePortsItems (rtItems vs) = portsOfItems vs) := by
  refine spc_serialize_value.mutual_induct
    (fun _ v => wirePortsValue (rtValue v) = portsOfValue v)
    (fun _ its => wirePortsEntriesRev ((rtEntries its).reverse) = portsOfEntries its)
    (fun _ its => wirePortsEntriesRev ((rtEntries its).reverse) = portsOfEntries its)
    (fun _ vs => wirePortsItems (rtItems vs) = portsOfItems vs)
    (fun _ vs => wirePortsItems (rtItems vs) = portsOfItems vs)
    ?_ ?_ ?_ ?_ ?_ ?_ ?_ ?_ ?_ ?_ ?_ ?_ ?_ ?_ ?_ ?_ ?_ ?_ ?_ <;> intros <;>
    simp_all [rtValue, rtItems, rtEntries, wirePortsValue, wirePortsItems,
      wirePortsEntriesRev, wirePortsEntriesRev_append, portsOfValue,
      portsOfItems, portsOfEntries]


/-! ## Claim theorems -/

/-- C1 counterexample: serializing and deserializing the two-entry
dictionary a: NULL, b: BOOL 1 yields the entries in the opposite order,
so the round trip does not preserve dictionary iteration order. -/
theorem C1_counterexample :
    decodedContent (spc_serialize msgC1) =
      some [([98], spc_value_t.bool 1), ([97], spc_value_t.null)] ∧
    msgC1.content = [([97], spc_value_t.null), ([98], spc_value_t.bool 1)] ∧
    decodedContent (spc_serialize msgC1) ≠ some msgC1.content := by
  have h := roundtrip_main msgC1
    (by simp [msgC1, wfValue, wfEntries, strOk])
    (by simp [msgC1])
    (by simp [msgC1])
    (by simp [msgC1])
    (by
      simp [msgC1, machHeaderSize, machBodySize, portDescSize, portsOfEntries,
        portsOfValue, emitValue, emitDictBody, emitEntries, padded,
        encU32_length, List.length_append])
  have hdc : decodedContent (spc_serialize msgC1) =
      some ((rtEntries msgC1.content).reverse) := by
    unfold decodedContent
    rw [h]
  refine ⟨?_, rfl, ?_⟩
  · rw [hdc]
    simp [msgC1, rtEntries, rtValue]
  · rw [hdc]
    simp [msgC1, rtEntries, rtValue]

/-- C1 (amended): decoding a serialized well-formed message (no FD
values, scalar payloads within their field widths, port dispositions
8-bit, id not the reserved 71, total size within the 32-bit header
field) restores the content tree with the same tags, scalar bytes and
port list, but with the stored entry list of every dictionary reversed
relative to its wire order, because the decoder prepends each decoded
item. -/
theorem C1_round_trip_reversed_dicts (msg : spc_message_t)
    (hwf : wfValue (.dict msg.content) = true)
    (hid : msg.id % 4294967296 ≠ 71)
    (hrt : msg.remote_port.type < 256) (hlt : msg.local_port.type < 256)
    (hsz : machHeaderSize + machBodySize +
      (portsOfEntries msg.content).length * portDescSize +
      (8 + (emitValue (.dict msg.content)).length) < 4294967296) :
    decodedContent (spc_serialize msg) = some ((rtEntries msg.content).reverse) := by
  unfold decodedContent
  rw [roundtrip_main msg hwf hid hrt hlt hsz]

/-- C1 witness. -/
theorem C1_witness :
    decodedContent (spc_serialize msgC1) = some ((rtEntries msgC1.content).reverse) :=
  C1_round_trip_reversed_dicts msgC1
    (by simp [msgC1, wfValue, wfEntries, strOk])
    (by simp [msgC1])
    (by simp [msgC1])
    (by simp [msgC1])
    (by
      simp [msgC1, machHeaderSize, machBodySize, portDescSize, portsOfEntries,
        portsOfValue, emitValue, emitDictBody, emitEntries, padded,
        encU32_length, List.length_append])

/-- C8 counterexample: dropping the final byte of a valid empty-dictionary
message makes decoding abort the process at the out-of-bounds read (the
fatal oob_read outcome), rather than return an error to the caller. -/
theorem C8_counterexample :
    spc_deserialize machTrunc = .error .oob_read ∧
    spc_deserialize machTrunc ≠ .ok none := by
  constructor
  · rfl
  · intro h
    rw [show spc_deserialize machTrunc = Except.error spc_error.oob_read from rfl] at h
    exact Except.noConfusion h

/-- C8 (amended): spc_read detects exactly the reads for which cursor+n
passes the message end and reacts by terminating the process (abort),
modelled as the fatal oob_read outcome; no out-of-bounds access happens
and no recoverable error is returned. -/
theorem C8_read_oob_aborts (r : reader_t) (len : Nat)
    (h : (r.pos + len : Int) > r.endp) :
    spc_read r len = .error .oob_read := by
  simp [spc_read, h]

/-- C8 witness. -/
theorem C8_witness : spc_read ⟨[1, 2], 0, 2, 0, []⟩ 3 = .error .oob_read :=
  C8_read_oob_aborts ⟨[1, 2], 0, 2, 0, []⟩ 3 (by decide)

/-- C9: a wire message with header id 71 makes spc_deserialize build the
synthetic error dictionary but then print and exit the process (the
fatal conn_interrupted outcome) instead of returning the synthetic
message to the caller. -/
theorem C9_id71_terminates (m : spc_mach_message_t)
    (h : m.header.msgh_id = MSGID_CONNECTION_INTERRUPTED) :
    spc_deserialize m = .error .conn_interrupted := by
  simp [spc_deserialize, h]

/-- C9 witness. -/
theorem C9_witness : spc_deserialize mach71 = .error .conn_interrupted :=
  C9_id71_terminates mach71 (by rfl)

/-- C10: for every value, the byte count spc_serialize_value returns
equals exactly the writer-cursor advance of the call; for port-typed
values both are 4 (the tag), since collecting the port does not touch
the inline buffer. -/
theorem C10_returned_count_is_advance (w : writer_t) (v : spc_value_t)
    (p : spc_port_t) :
    (spc_serialize_value w v).1.buf.length =
      w.buf.length + (spc_serialize_value w v).2 ∧
    (spc_serialize_value w (.fd p)).1.buf = w.buf ++ encU32 SPC_TYPE_FD ∧
    (spc_serialize_value w (.fd p)).2 = 4 ∧
    (spc_serialize_value w (.fd p)).1.ports = w.ports ++ [p] ∧
    (spc_serialize_value w (.send_port p)).1.buf =
      w.buf ++ encU32 SPC_TYPE_SEND_PORT ∧
    (spc_serialize_value w (.send_port p)).2 = 4 ∧
    (spc_serialize_value w (.recv_port p)).1.buf =
      w.buf ++ encU32 SPC_TYPE_RECV_PORT ∧
    (spc_serialize_value w (.recv_port p)).2 = 4 := by
  simp [spc_serialize_value_spec, emitValue, portsOfValue, encU32_length]

/-- C5: spc_write_padded appends the bytes and then exactly
(4 - len mod 4) mod 4 zero bytes, so a 4-byte-aligned cursor stays
4-byte aligned after every padded variable-length payload. -/
theorem C5_write_padded (w : writer_t) (bytes : List Nat) :
    spc_write_padded w bytes =
      ({ w with buf := w.buf ++ bytes ++
          List.replicate ((4 - bytes.length % 4) % 4) 0 },
        bytes.length + (4 - bytes.length % 4) % 4) ∧
    (4 ∣ w.buf.length → 4 ∣ (spc_write_padded w bytes).1.buf.length) := by
  constructor
  · rfl
  · intro h
    simp [spc_write_padded]
    omega

/-- C5 witness. -/
theorem C5_witness :
    4 ∣ (spc_write_padded ⟨[1, 2, 3, 4], []⟩ [7]).1.buf.length :=
  (C5_write_padded ⟨[1, 2, 3, 4], []⟩ [7]).2 (by decide)

/-- C3: the decoder switch has no case for the FD tag, so an FD value
record is rejected through the unsupported-type exit instead of pulling
a port from the out-of-band list, even though the serializer itself
emits FD values (tag only, port collected out of band). -/
theorem C3_fd_tag_exits :
    spc_deserialize_value 1 readerFD = .error .unknown_value_type ∧
    spc_serialize_value ⟨[], []⟩ (.fd ⟨9, 3⟩) =
      (⟨encU32 SPC_TYPE_FD, [⟨9, 3⟩]⟩, 4) := by
  constructor
  · rfl
  · simp [spc_serialize_value_spec, emitValue, portsOfValue, encU32_length]

/-- C7: next_port returns the indexed port and advances the cursor while
ports remain, and returns the null-port sentinel without failing (and
without moving the cursor) once the list is exhausted; consequently a
port-typed value record in excess of the available descriptors decodes
to the null port rather than an error. -/
theorem C7_next_port (r : reader_t) :
    (r.next_port < r.ports.length →
      spc_reader_next_port r =
        (r.ports.getD r.next_port SPC_NULL_PORT,
          { r with next_port := r.next_port + 1 })) ∧
    (r.ports.length ≤ r.next_port →
      spc_reader_next_port r = (SPC_NULL_PORT, r)) ∧
    (∀ (f : Nat) (pre post : List Nat),
      r.ports.length ≤ r.next_port →
      r.mem = pre ++ encU32 SPC_TYPE_SEND_PORT ++ post →
      r.pos = pre.length →
      (r.pos + 4 : Int) ≤ r.endp →
      spc_deserialize_value (f + 1) r =
        .ok (.send_port SPC_NULL_PORT, { r with pos := r.pos + 4 })) := by
  refine ⟨?_, ?_, ?_⟩
  · intro h
    unfold spc_reader_next_port
    rw [if_neg (by omega)]
  · intro h
    exact spc_reader_next_port_exhausted r h
  · intro f pre post hex hmem hpos hend
    have hslice : (r.mem.drop r.pos).take 4 = encU32 SPC_TYPE_SEND_PORT := by
      rw [hmem, hpos, List.append_assoc, List.drop_left]
      rw [show (4 : Nat) = (encU32 SPC_TYPE_SEND_PORT).length from
        (encU32_length _).symm]
      exact List.take_left _ _
    have h1 := spc_read_uint32_at r SPC_TYPE_SEND_PORT hslice hend
    have hnp := spc_reader_next_port_exhausted
      { r with pos := r.pos + 4 } (by simpa using hex)
    simp [spc_deserialize_value, h1, hnp, SPC_TYPE_NULL, SPC_TYPE_BOOL,
      SPC_TYPE_UINT64, SPC_TYPE_INT64, SPC_TYPE_DOUBLE, SPC_TYPE_STRING,
      SPC_TYPE_ARRAY, SPC_TYPE_DICT, SPC_TYPE_SEND_PORT]

/-- C7 witness. -/
theorem C7_witness :
    spc_reader_next_port ⟨[0, 208, 0, 0], 0, 4, 0, []⟩ =
      (SPC_NULL_PORT, ⟨[0, 208, 0, 0], 0, 4, 0, []⟩) ∧
    spc_deserialize_value 1 ⟨[0, 208, 0, 0], 0, 4, 0, []⟩ =
      .ok (.send_port SPC_NULL_PORT, ⟨[0, 208, 0, 0], 4, 4, 0, []⟩) ∧
    spc_reader_next_port ⟨[], 0, 0, 0, [⟨9, 3⟩]⟩ =
      (⟨9, 3⟩, ⟨[], 0, 0, 1, [⟨9, 3⟩]⟩) :=
  ⟨(C7_next_port _).2.1 (by decide),
   (C7_next_port _).2.2 0 [] [] (by decide) (by decide) (by decide) (by decide),
   (C7_next_port _).1 (by decide)⟩

/-- C2: every successfully decoded message takes BOTH port names from the
header's remote-port field: the local port's name is aliased to
msgh_remote_port instead of msgh_local_port, while the port types do come
from the respective REMOTE/LOCAL bit fields. -/
theorem C2_local_port_name_aliased (m : spc_mach_message_t)
    (msg : spc_message_t) (h : spc_deserialize m = .ok (some msg)) :
    msg.remote_port =
      ⟨m.header.msgh_remote_port, MACH_MSGH_BITS_REMOTE m.header.msgh_bits⟩ ∧
    msg.local_port =
      ⟨m.header.msgh_remote_port, MACH_MSGH_BITS_LOCAL m.header.msgh_bits⟩ ∧
    msg.local_port.name = m.header.msgh_remote_port := by
  simp only [spc_deserialize] at h
  repeat' split at h
  all_goals first
    | (simp only [Except.ok.injEq, Option.some.injEq] at h
       subst h
       exact ⟨rfl, rfl, rfl⟩)
    | simp at h

/-- C2 witness. -/
theorem C2_witness :
    (⟨⟨5, 0⟩, ⟨5, 0⟩, 0, []⟩ : spc_message_t).local_port.name =
      machC2.header.msgh_remote_port :=
  (C2_local_port_name_aliased machC2 ⟨⟨5, 0⟩, ⟨5, 0⟩, 0, []⟩ (by rfl)).2.2

/-- The 32-bit field at a container's own header position inside an
appended byte run. -/
theorem container_field (pre tail : List Nat) (x : Nat) (hx : x < 4294967296) :
    decU32 (((pre ++ (encU32 x ++ tail)).drop pre.length).take 4) = x := by
  rw [List.drop_left]
  rw [show (4 : Nat) = (encU32 x).length from (encU32_length x).symm, List.take_left]
  rw [decU32_encU32]
  omega

/-- C4: for arrays and dictionaries alike, the 32-bit byte-size field the
encoder stamps at the container's own header position equals exactly the
number of payload bytes written after that field (the 4-byte element
count plus all encoded entries), and the call returns that payload size
plus 4. -/
theorem C4_container_size_field (w : writer_t) (vs : List spc_value_t)
    (its : List (List Nat × spc_value_t))
    (ha : 4 + (emitItems vs).length < 4294967296)
    (hd : 4 + (emitEntries its).length < 4294967296) :
    (decU32 (((spc_write_array w vs).1.buf.drop w.buf.length).take 4) =
        (spc_write_array w vs).1.buf.length - (w.buf.length + 4) ∧
      (spc_write_array w vs).2 =
        ((spc_write_array w vs).1.buf.length - (w.buf.length + 4)) + 4) ∧
    (decU32 (((spc_write_dict w its).1.buf.drop w.buf.length).take 4) =
        (spc_write_dict w its).1.buf.length - (w.buf.length + 4) ∧
      (spc_write_dict w its).2 =
        ((spc_write_dict w its).1.buf.length - (w.buf.length + 4)) + 4) := by
  refine ⟨⟨?_, ?_⟩, ?_, ?_⟩
  · rw [spc_write_array_spec]
    simp only [emitArrayBody, List.append_assoc]
    rw [container_field w.buf (encU32 vs.length ++ emitItems vs)
      (4 + (emitItems vs).length) ha]
    simp [encU32_length]
    omega
  · rw [spc_write_array_spec]
    simp [emitArrayBody, encU32_length]
    omega
  · rw [spc_write_dict_spec]
    simp only [emitDictBody, List.append_assoc]
    rw [container_field w.buf (encU32 its.length ++ emitEntries its)
      (4 + (emitEntries its).length) hd]
    simp [encU32_length]
    omega
  · rw [spc_write_dict_spec]
    simp [emitDictBody, encU32_length]
    omega

/-- C4 witness. -/
theorem C4_witness :
    (decU32 (((spc_write_array ⟨[], []⟩ [spc_value_t.null]).1.buf.drop 0).take 4) =
        (spc_write_array ⟨[], []⟩ [spc_value_t.null]).1.buf.length - (0 + 4) ∧
      (spc_write_array ⟨[], []⟩ [spc_value_t.null]).2 =
        ((spc_write_array ⟨[], []⟩ [spc_value_t.null]).1.buf.length - (0 + 4)) + 4) ∧
    (decU32 (((spc_write_dict ⟨[], []⟩
          [([107], spc_value_t.null)]).1.buf.drop 0).take 4) =
        (spc_write_dict ⟨[], []⟩ [([107], spc_value_t.null)]).1.buf.length -
          (0 + 4) ∧
      (spc_write_dict ⟨[], []⟩ [([107], spc_value_t.null)]).2 =
        ((spc_write_dict ⟨[], []⟩ [([107], spc_value_t.null)]).1.buf.length -
          (0 + 4)) + 4) := by
  exact C4_container_size_field ⟨[], []⟩ [spc_value_t.null]
    [([107], spc_value_t.null)]
    (by simp [emitItems, emitValue, encU32_length])
    (by simp [emitEntries, emitValue, padded, encU32_length])

/-- C6 counterexample: serializing a send-port value whose disposition is
300 emits a descriptor identical to that of disposition 44 (the 8-bit
field truncates 300 mod 256), and descriptor parsing recovers the port
as name 1, type 44, which differs from the collected port: the emitted
descriptor sequence does not equal the collected port sequence element
for element. -/
theorem C6_counterexample :
    portsOfEntries msgC6.content = [(⟨1, 300⟩ : spc_port_t)] ∧
    (spc_serialize msgC6).buf =
      descRegion [(⟨1, 300⟩ : spc_port_t)] ++ magicBytes ++
        emitValue (.dict msgC6.content) ∧
    encPortDescriptor ⟨1, 300⟩ = encPortDescriptor ⟨1, 44⟩ ∧
    spc_parse_descriptors 1 ⟨encPortDescriptor ⟨1, 300⟩, 0, 12, 0, []⟩ =
      .ok ⟨encPortDescriptor ⟨1, 300⟩, 12, 12, 0, [⟨1, 44⟩]⟩ ∧
    (⟨1, 44⟩ : spc_port_t) ≠ ⟨1, 300⟩ := by
  have hp : portsOfEntries msgC6.content = [(⟨1, 300⟩ : spc_port_t)] := by
    simp [msgC6, portsOfEntries, portsOfValue]
  refine ⟨hp, ?_, by decide, by rfl, by decide⟩
  rw [spc_serialize_spec]
  simp [hp]

/-- C6 (amended): the serializer emits one port descriptor per port-typed
value of a pre-order content walk, in that order, each carrying the
port's name and its disposition truncated to the 8-bit descriptor field
(so a descriptor equals that of the truncated port); for well-formed
messages the decoder assigns the parsed ports back to the port-typed
records in the same wire-order positions, so a wire-order walk of the
decoded tree recovers exactly the collected port sequence. -/
theorem C6_descriptors_preorder_truncated (msg : spc_message_t)
    (hwf : wfValue (.dict msg.content) = true)
    (hid : msg.id % 4294967296 ≠ 71)
    (hrt : msg.remote_port.type < 256) (hlt : msg.local_port.type < 256)
    (hsz : machHeaderSize + machBodySize +
      (portsOfEntries msg.content).length * portDescSize +
      (8 + (emitValue (.dict msg.content)).length) < 4294967296) :
    (spc_serialize msg).buf =
      descRegion (portsOfEntries msg.content) ++ magicBytes ++
        emitValue (.dict msg.content) ∧
    (∀ p : spc_port_t, encPortDescriptor p = encPortDescriptor (truncPort p)) ∧
    decodedContent (spc_serialize msg) = some ((rtEntries msg.content).reverse) ∧
    wirePortsEntriesRev ((rtEntries msg.content).reverse) =
      portsOfEntries msg.content := by
  refine ⟨?_, ?_, ?_, wirePorts_rt.2.1 ⟨[], []⟩ msg.content⟩
  · simp only [spc_serialize_spec]
  · intro p
    simp only [encPortDescriptor, encU32, truncPort, List.cons_append,
      List.nil_append, List.cons.injEq]
    refine ⟨?_, ?_, ?_, ?_, trivial, trivial, trivial, trivial, trivial,
      trivial, ?_, trivial⟩
    · exact (Nat.mod_mod_of_dvd _ (by decide)).symm
    · rw [show (4294967296 : Nat) = 256 * 16777216 from rfl,
        Nat.mod_mul_right_div_self, Nat.mod_mod_of_dvd _ (by decide)]
    · rw [show (4294967296 : Nat) = 65536 * 65536 from rfl,
        Nat.mod_mul_right_div_self, Nat.mod_mod_of_dvd _ (by decide)]
    · rw [show (4294967296 : Nat) = 16777216 * 256 from rfl,
        Nat.mod_mul_right_div_self, Nat.mod_mod_of_dvd _ (by decide)]
    · rw [Nat.mod_mod_of_dvd _ (by decide)]
  · unfold decodedContent
    rw [roundtrip_main msg hwf hid hrt hlt hsz]

/-- C6 witness. -/
theorem C6_witness :
    (spc_serialize msgC6w).buf =
      descRegion (portsOfEntries msgC6w.content) ++ magicBytes ++
        emitValue (.dict msgC6w.content) ∧
    (∀ p : spc_port_t, encPortDescriptor p = encPortDescriptor (truncPort p)) ∧
    decodedContent (spc_serialize msgC6w) =
      some ((rtEntries msgC6w.content).reverse) ∧
    wirePortsEntriesRev ((rtEntries msgC6w.content).reverse) =
      portsOfEntries msgC6w.content :=
  C6_descriptors_preorder_truncated msgC6w
    (by simp [msgC6w, wfValue, wfEntries, strOk])
    (by simp [msgC6w])
    (by simp [msgC6w])
    (by simp [msgC6w])
    (by
      simp [msgC6w, machHeaderSize, machBodySize, portDescSize, portsOfEntries,
        portsOfValue, emitValue, emitDictBody, emitEntries, padded,
        encU32_length, List.length_append])
end Spc
